import Mathlib

/-!
Verification of the noctem wiki knowledge-base core (chunking, retrieval,
context assembly, ingestion lifecycle, query answering) against its
natural-language specification.

Python text is modelled as `List Char`; Python ints as `Int` (token budgets
may be any integer) or `Nat` where the source only ever produces
non-negative values; fallible lookups (database rows, files on disk) as
`Option`-valued environments passed explicitly.  Regular-expression based
splitting from `noctem/wiki/chunking.py` is embedded by recursive scanners
that reproduce the exact match/backtracking behaviour of the Python
patterns involved (`\n\s*\n`, `(?<=[.!?])\s+`, `^(#{1,6})\s+(.+)$` with
MULTILINE, `\[PAGE (\d+)\]`, `^#\s+(.+)$`).
-/

namespace Noctem

/-! ## Python string primitives -/

/-- The characters Python `str.strip()` (no argument) removes and the regex
class `\s` matches, restricted to ASCII: space, tab, newline, carriage
return, vertical tab, form feed. -/

def pyIsSpace (c : Char) : Bool :=
  c = ' ' || c = '\t' || c = '\n' || c = '\r' || c = '\x0b' || c = '\x0c'

/-- Python `str.strip()`: drop leading and trailing whitespace. -/

def pyStrip (l : List Char) : List Char :=
  ((l.dropWhile pyIsSpace).reverse.dropWhile pyIsSpace).reverse

/-- Python slice `l[-n:]` for `n > 0`: the last `n` elements. -/

def takeLast (n : Nat) (l : List Char) : List Char :=
  l.drop (l.length - n)

/-- Python slice `l[:i]` for an arbitrary integer `i` (a negative index
counts from the end, clamped at 0). -/

def pySliceTo (l : List Char) (i : Int) : List Char :=
  if 0 ≤ i then l.take i.toNat else l.take ((l.length : Int) + i).toNat

/-- Python `needle in hay` on strings: substring containment. -/

def pyContains (needle hay : List Char) : Bool :=
  hay.tails.any (fun t => needle.isPrefixOf t)

/-- Python `str.lower()` (ASCII case folding suffices for the texts the
claims are about). -/

def pyLower (l : List Char) : List Char :=
  l.map Char.toLower

/-- Python `str.splitlines`-like view used to state properties about the
assembled context: split at every `'\n'` (so `"a\nb"` gives `["a","b"]`
and a trailing newline yields a final empty line). -/

def linesOf : List Char → List (List Char)
  | [] => [[]]
  | c :: rest =>
    if c = '\n' then [] :: linesOf rest
    else (c :: (linesOf rest).headD []) :: (linesOf rest).tail

/-- The maximal whitespace-delimited tokens of a text, in order.  This is
the notion of "non-whitespace token" the chunking spec sentence speaks
about. -/

def pyTokens : List Char → List (List Char)
  | [] => []
  | c :: cs =>
    if pyIsSpace c then pyTokens cs
    else (c :: cs.takeWhile (fun d => !pyIsSpace d)) ::
      pyTokens (cs.dropWhile (fun d => !pyIsSpace d))
termination_by l => l.length
decreasing_by
  all_goals
    simp only [List.length_cons]
    refine Nat.lt_succ_of_le ?_
    first
      | exact Nat.le_refl _
      | exact (List.dropWhile_sublist _).length_le

/-! ## noctem/wiki/chunking.py -/

/-- `CHARS_PER_TOKEN = 4`. -/

def CHARS_PER_TOKEN : Int := 4

/-- `estimate_tokens(text) = len(text) // 4`. -/

def estimate_tokens (text : List Char) : Nat :=
  text.length / 4

/-- `tokens_to_chars(tokens) = tokens * 4`. -/

def tokens_to_chars (tokens : Int) : Int :=
  tokens * CHARS_PER_TOKEN

/-- `TextChunk` dataclass from `noctem/wiki/chunking.py`. -/

structure TextChunk where
  content : List Char
  page_or_section : Option (List Char)
  chunk_index : Nat
  start_char : Int
  end_char : Int
  token_count : Nat
deriving DecidableEq, Repr

/-- Attempt to match `\[PAGE (\d+)\]` at the head of `l`; returns the digit
group.  (`\d+` is greedy and `]` must follow, so the group is the maximal
digit run.) -/

def matchPageAt (l : List Char) : Option (List Char) :=
  let pat : List Char := ['[', 'P', 'A', 'G', 'E', ' ']
  if pat.isPrefixOf l then
    let rest := l.drop 6
    let ds := rest.takeWhile Char.isDigit
    if ds ≠ [] ∧ (rest.drop ds.length).head? = some ']' then some ds else none
  else none

/-- Leftmost match of `\[PAGE (\d+)\]` (the behaviour of `re.search`). -/

def scanPage : List Char → Option (List Char)
  | [] => none
  | c :: cs =>
    match matchPageAt (c :: cs) with
    | some ds => some ds
    | none => scanPage cs

/-- `extract_page_number`: `re.search(r"\[PAGE (\d+)\]", text)` and format
the hit as `p.{digits}`. -/

def extract_page_number (text : List Char) : Option (List Char) :=
  (scanPage text).map (fun ds => ['p', '.'] ++ ds)

/-- Attempt to match `#{1,6}\s+(.+)$` at a line-start anchor, mirroring
Python's greedy matching with backtracking: `#{1,6}` takes at most six
hashes and fails on a seventh, `\s+` may cross newlines, and when nothing
follows the whitespace run `.+` backtracks to swallow the last
non-newline whitespace character.  Returns the `(.+)` group and the total
number of characters consumed by the match. -/

def matchHeadingAt (l : List Char) : Option (List Char × Nat) :=
  let hs := l.takeWhile (fun c => c = '#')
  if hs.isEmpty || decide (7 ≤ hs.length) then none
  else
    let rest := l.drop hs.length
    let ws := rest.takeWhile pyIsSpace
    if ws.isEmpty then none
    else
      let body := rest.drop ws.length
      let grp := body.takeWhile (fun c => c ≠ '\n')
      if !grp.isEmpty then some (grp, hs.length + ws.length + grp.length)
      else
        match (ws.drop 1).enum.foldl
            (fun acc ic => if ic.2 ≠ '\n' then some ic else acc) none with
        | some (i, c) => some ([c], hs.length + (i + 1) + 1)
        | none => none

/-- Skip past the current line: drop up to and including the next `'\n'`. -/

def nextLineStart (l : List Char) : List Char :=
  (l.dropWhile (fun c => c ≠ '\n')).drop 1

/-- All matches of `^(#{1,6})\s+(.+)$` under `re.MULTILINE`, scanning
line-start anchors left to right and resuming after each match's end, as
`re.findall` does.  Fuel bounds the recursion; `length + 1` is always
enough because every step consumes at least one character. -/

def headingsGo : Nat → List Char → List (List Char)
  | 0, _ => []
  | fuel + 1, l =>
    if l.isEmpty then []
    else
      match matchHeadingAt l with
      | some (t, n) => t :: headingsGo fuel (nextLineStart (l.drop n))
      | none => headingsGo fuel (nextLineStart l)

/-- `extract_markdown_section`: the last heading's title group, stripped
(`headings[-1]`, `title.strip()`); `None` when there is no heading. -/

def extract_markdown_section (text : List Char) : Option (List Char) :=
  match (headingsGo (text.length + 1) text).getLast? with
  | some t => some (pyStrip t)
  | none => none

/-- `find_section_context(full_text, position)`: look back from `position`
for a page marker in the last 500 characters, else the most recent
markdown heading anywhere before; an empty heading title is falsy in
Python and yields `None`. -/

def find_section_context (full_text : List Char) (position : Int) :
    Option (List Char) :=
  let text_before := pySliceTo full_text position
  let window :=
    if 500 < text_before.length then takeLast 500 text_before else text_before
  match extract_page_number window with
  | some page => some page
  | none =>
    match extract_markdown_section text_before with
    | some s => if s.isEmpty then none else some (['#', '#', ' '] ++ s)
    | none => none

/-- Index (from the left) of the last `'\n'` in `l`, if any. -/

def lastNewlineIdx : List Char → Option Nat
  | [] => none
  | c :: cs =>
    match lastNewlineIdx cs with
    | some j => some (j + 1)
    | none => if c = '\n' then some 0 else none

/-- First match of `\n\s*\n` in `l` as `(start, end)` offsets.  The greedy
`\s*` backtracks until a final `'\n'` is available, so the match ends just
after the last newline of the maximal whitespace run that follows the
opening newline. -/

def findBreak : List Char → Option (Nat × Nat)
  | [] => none
  | c :: cs =>
    if c = '\n' then
      match lastNewlineIdx (cs.takeWhile pyIsSpace) with
      | some j => some (0, j + 2)
      | none => (findBreak cs).map (fun p => (p.1 + 1, p.2 + 1))
    else (findBreak cs).map (fun p => (p.1 + 1, p.2 + 1))

/-- The slicing loop of `split_into_paragraphs`: cut at each `\n\s*\n`
match, strip each slice, skip empties, and record each slice's starting
offset.  Fuel bounds the recursion (`length + 1` always suffices since a
match consumes at least two characters). -/

def splitParasGo : Nat → List Char → Nat → List (List Char × Nat)
  | 0, _, _ => []
  | fuel + 1, l, off =>
    match findBreak l with
    | none =>
      if l.isEmpty || (pyStrip l).isEmpty then [] else [(pyStrip l, off)]
    | some (s, e) =>
      (if (pyStrip (l.take s)).isEmpty then [] else [(pyStrip (l.take s), off)])
        ++ splitParasGo fuel (l.drop e) (off + e)

/-- `split_into_paragraphs(text)`. -/

def split_into_paragraphs (text : List Char) : List (List Char × Nat) :=
  splitParasGo (text.length + 1) text 0

/-- First match of `(?<=[.!?])\s+` as `(start, end)` offsets; `prev` is the
character just before `l` (for the lookbehind).  The match is the maximal
whitespace run at a position preceded by `.`, `!` or `?`. -/

def findSentBreak : Option Char → List Char → Option (Nat × Nat)
  | _, [] => none
  | prev, c :: cs =>
    if pyIsSpace c && (prev = some '.' || prev = some '!' || prev = some '?') then
      some (0, 1 + (cs.takeWhile pyIsSpace).length)
    else (findSentBreak (some c) cs).map (fun p => (p.1 + 1, p.2 + 1))

/-- The slicing loop of `split_into_sentences`: each slice runs up to and
including the first whitespace character of the separating run
(`text[current_pos:end_pos + 1]`), is stripped, and empties are skipped. -/

def splitSentsGo : Nat → Option Char → List Char → Nat → List (List Char × Nat)
  | 0, _, _, _ => []
  | fuel + 1, prev, l, off =>
    match findSentBreak prev l with
    | none =>
      if l.isEmpty || (pyStrip l).isEmpty then [] else [(pyStrip l, off)]
    | some (s, e) =>
      (if (pyStrip (l.take (s + 1))).isEmpty then []
       else [(pyStrip (l.take (s + 1)), off)])
        ++ splitSentsGo fuel (l[e - 1]?) (l.drop e) (off + e)

/-- `split_into_sentences(text)`. -/

def split_into_sentences (text : List Char) : List (List Char × Nat) :=
  splitSentsGo (text.length + 1) none text 0

/-- The paragraph separator `"\n\n"` inserted between accumulated pieces. -/

def nn : List Char := ['\n', '\n']

/-- The running state of paragraph-accumulation loop of `chunk_text`:
finalized chunks, next chunk index, the growing `current_chunk_text` and
its `current_chunk_start`. -/

structure ChunkAcc where
  chunks : List TextChunk
  idx : Nat
  cur : List Char
  curStart : Int
deriving Repr

/-- Finalize the current accumulated chunk exactly as `chunk_text` does
(strip the content, resolve the section label at the chunk's start). -/

def finalizeChunk (text : List Char) (st : ChunkAcc) : TextChunk :=
  { content := pyStrip st.cur
    page_or_section := find_section_context text st.curStart
    chunk_index := st.idx
    start_char := st.curStart
    end_char := st.curStart + st.cur.length
    token_count := estimate_tokens st.cur }

/-- One iteration of paragraph loop of `chunk_text`. -/

def chunkStep (text : List Char) (max_tokens overlap_chars : Int)
    (st : ChunkAcc) (p : List Char × Nat) : ChunkAcc :=
  let para_tokens := estimate_tokens p.1
  let current_tokens := estimate_tokens st.cur
  if st.cur ≠ [] ∧ (current_tokens : Int) + para_tokens > max_tokens then
    let c := finalizeChunk text st
    if 0 < overlap_chars ∧ overlap_chars < (st.cur.length : Int) then
      let overlap_text := takeLast overlap_chars.toNat st.cur
      { chunks := st.chunks ++ [c]
        idx := st.idx + 1
        cur := overlap_text ++ nn ++ p.1
        curStart := (p.2 : Int) - overlap_text.length }
    else
      { chunks := st.chunks ++ [c]
        idx := st.idx + 1
        cur := p.1
        curStart := (p.2 : Int) }
  else
    if st.cur ≠ [] then { st with cur := st.cur ++ nn ++ p.1 }
    else { st with cur := p.1, curStart := (p.2 : Int) }

/-- Merge a run of too-small chunks into the current one, mirroring the
inner `while current.token_count < min_tokens and i + 1 < len(chunks)`
loop of `_merge_small_chunks` (content joined with `"\n\n"`, the first
chunk's section label kept, token counts added). -/

def mergeRun (min_tokens : Int) : TextChunk → List TextChunk → List TextChunk
  | cur, [] => [cur]
  | cur, next :: rest =>
    if (cur.token_count : Int) < min_tokens then
      mergeRun min_tokens
        { content := cur.content ++ nn ++ next.content
          page_or_section := cur.page_or_section
          chunk_index := cur.chunk_index
          start_char := cur.start_char
          end_char := next.end_char
          token_count := cur.token_count + next.token_count } rest
    else cur :: mergeRun min_tokens next rest

/-- `_merge_small_chunks(chunks, min_tokens)`: lists of at most one chunk
are returned unchanged; otherwise each too-small chunk absorbs its
successors until it meets the floor (a too-small tail keeps merging only
while successors exist). -/

def mergeSmallChunks (chunks : List TextChunk) (min_tokens : Int) :
    List TextChunk :=
  if chunks.length ≤ 1 then chunks
  else
    match chunks with
    | [] => []
    | c :: rest => mergeRun min_tokens c rest

/-- Build a sub-chunk during the sentence re-split, as
`_split_large_chunks` does. -/

def subChunk (chunk : TextChunk) (cur : List Char) (curStart : Int) :
    TextChunk :=
  { content := pyStrip cur
    page_or_section := chunk.page_or_section
    chunk_index := chunk.chunk_index
    start_char := curStart
    end_char := curStart + cur.length
    token_count := estimate_tokens cur }

/-- One iteration of the sentence-packing loop in `_split_large_chunks`:
state is `(finished sub-chunks, current_text, current_start)`. -/

def splitSentStep (chunk : TextChunk) (max_tokens : Int)
    (acc : List TextChunk × List Char × Int) (sp : List Char × Nat) :
    List TextChunk × List Char × Int :=
  let cur := acc.2.1
  if cur ≠ [] ∧ (estimate_tokens cur : Int) + estimate_tokens sp.1 > max_tokens then
    (acc.1 ++ [subChunk chunk cur acc.2.2], sp.1, chunk.start_char + sp.2)
  else if cur ≠ [] then (acc.1, cur ++ [' '] ++ sp.1, acc.2.2)
  else (acc.1, sp.1, acc.2.2)

/-- Re-split one chunk on sentence boundaries when it exceeds
`max_tokens`; chunks within the bound pass through unchanged. -/

def splitLargeOne (max_tokens : Int) (chunk : TextChunk) : List TextChunk :=
  if (chunk.token_count : Int) ≤ max_tokens then [chunk]
  else
    let sentences := split_into_sentences chunk.content
    let fin := sentences.foldl (splitSentStep chunk max_tokens)
      ([], [], chunk.start_char)
    if (pyStrip fin.2.1).isEmpty then fin.1
    else fin.1 ++ [subChunk chunk fin.2.1 fin.2.2]

/-- `_split_large_chunks(chunks, max_tokens)`. -/

def splitLargeChunks (chunks : List TextChunk) (max_tokens : Int) :
    List TextChunk :=
  (chunks.map (splitLargeOne max_tokens)).flatten

/-- The final re-indexing pass of `chunk_text`: `chunk.chunk_index = i`. -/

def reindexChunks (chunks : List TextChunk) : List TextChunk :=
  chunks.enum.map (fun ic => { ic.2 with chunk_index := ic.1 })

/-- `chunk_text(text, file_type, min_tokens, max_tokens, overlap_tokens)`
from `noctem/wiki/chunking.py`.  `file_type` is accepted but, as in the
source, never used.  (`min_chars` and `max_chars` are computed in the
source but also never used.) -/

def chunk_text (text : List Char) (file_type : List Char)
    (min_tokens max_tokens overlap_tokens : Int) : List TextChunk :=
  if (pyStrip text).isEmpty then []
  else
    let _ := file_type
    let overlap_chars := tokens_to_chars overlap_tokens
    let paragraphs := split_into_paragraphs text
    let paragraphs := if paragraphs.isEmpty then [(pyStrip text, 0)] else paragraphs
    let st := paragraphs.foldl (chunkStep text max_tokens overlap_chars)
      ⟨[], 0, [], 0⟩
    let chunks :=
      if (pyStrip st.cur).isEmpty then st.chunks
      else st.chunks ++ [finalizeChunk text st]
    let chunks := mergeSmallChunks chunks min_tokens
    let chunks := splitLargeChunks chunks max_tokens
    reindexChunks chunks

/-! ## chunk_text preserves tokens (claim C1 infrastructure) -/

/-- The concatenation, in order, of the token lists of a list of chunks'
contents. -/

def tokensOfChunks (cs : List TextChunk) : List (List Char) :=
  (cs.map (fun c => pyTokens c.content)).flatten

/-- A large chunk followed by a small tail chunk, as `_merge_small_chunks`
receives them. -/

def c4big : TextChunk :=
  { content := "Lorem ipsum dolor sit amet, consectetur.".toList
    page_or_section := none
    chunk_index := 0
    start_char := 0
    end_char := 40
    token_count := 10 }

/-- A below-floor tail chunk. -/

def c4small : TextChunk :=
  { content := "tail".toList
    page_or_section := none
    chunk_index := 1
    start_char := 42
    end_char := 46
    token_count := 1 }

/-- The repeated word of the C7 scenario. -/

def c7word : List Char := "word ".toList

/-- `"word " * 500`. -/

def c7words : List Char := (List.replicate 500 c7word).flatten

/-- `"# Intro\n\n"`. -/

def c7head : List Char := "# Intro\n\n".toList

/-- The scenario input `"# Intro\n\n" + "word " * 500`. -/

def c7text : List Char := c7head ++ c7words

/-- `("word " * 500).strip()`: the stripped second paragraph. -/

def c7ws : List Char := (List.replicate 499 c7word).flatten ++ "word".toList

/-- The single surviving chunk's content: heading plus stripped words. -/

def c7body : List Char := c7head ++ c7ws

/-- The first finalized chunk of the C7 scenario: the bare heading, with no
section label (nothing precedes position 0). -/

def c7chunk0 : TextChunk :=
  { content := "# Intro".toList
    page_or_section := none
    chunk_index := 0
    start_char := 0
    end_char := 7
    token_count := 1 }

/-- The second finalized chunk: the stripped word block, labelled with the
`## Intro` section found behind position 9. -/

def c7chunk1 : TextChunk :=
  { content := c7ws
    page_or_section := some ("## Intro".toList)
    chunk_index := 1
    start_char := 9
    end_char := 2508
    token_count := 624 }

/-- The merge-repair result: the heading chunk (1 token, below the floor of
300) absorbs the word chunk and keeps its own absent section label. -/

def c7merged : TextChunk :=
  { content := c7body
    page_or_section := none
    chunk_index := 0
    start_char := 0
    end_char := 2508
    token_count := 625 }

/-- The single chunk `chunk_text` returns for the C7 scenario. -/

def c7final : TextChunk :=
  { content := c7body
    page_or_section := none
    chunk_index := 0
    start_char := 0
    end_char := 2508
    token_count := 627 }

/-! ## noctem/wiki/retrieval.py

Scores (Python floats) are modelled as rationals; the embedding service,
the vector index and the relational store are external collaborators (per
spec section 6) and enter as an explicit environment: `rawSearch` stands
for `search_similar` (query, `n_results`, optional source filter — the
embedding-model name is folded into the environment), and the two lookup
functions stand for `get_chunk_by_id` and `get_source_by_id`. -/

/-- The fields of a `KnowledgeChunk` row that retrieval reads. -/

structure KnowledgeChunkR where
  source_id : Nat
  content : List Char
  page_or_section : Option (List Char)
  token_count : Nat
deriving DecidableEq, Repr

/-- The fields of a `Source` row that retrieval reads. -/

structure SourceR where
  id : Nat
  trust_level : Nat
  file_name : List Char
deriving DecidableEq, Repr

/-- `SearchResult` dataclass from `noctem/wiki/retrieval.py`. -/

structure SearchResultR where
  chunk : KnowledgeChunkR
  source : SourceR
  similarity_score : ℚ
  citation_ref : List Char
deriving DecidableEq, Repr

/-- `SearchResult.trust_weight`: `1.0 / source.trust_level` (the
`if self.source` guard is always true here: `search` only builds results
whose source row resolved). -/

def trust_weight (r : SearchResultR) : ℚ :=
  1 / (r.source.trust_level : ℚ)

/-- `SearchResult.weighted_score = similarity_score * trust_weight`. -/

def weighted_score (r : SearchResultR) : ℚ :=
  r.similarity_score * trust_weight r

/-- The collaborators `search` talks to. -/

structure SearchEnv where
  rawSearch : List Char → Nat → Option (List Nat) → List (List Char × ℚ)
  get_chunk_by_id : List Char → Option KnowledgeChunkR
  get_source_by_id : Nat → Option SourceR

/-- Build the `SearchResult` for a resolved hit, including its
`citation_ref` (`file_name`, plus `", {page_or_section}"` when the section
label is truthy). -/

def mkSearchResult (chunk : KnowledgeChunkR) (source : SourceR)
    (similarity : ℚ) : SearchResultR :=
  { chunk := chunk
    source := source
    similarity_score := similarity
    citation_ref := source.file_name ++
      (match chunk.page_or_section with
       | some s => if s.isEmpty then [] else ',' :: ' ' :: s
       | none => []) }

/-- One iteration of hit loop of `search`: resolve the chunk row, then the
source row (a missing row skips the hit), then apply the trust filter
(`trust_level is not None and source.trust_level > trust_level` skips). -/

def resolveHit (env : SearchEnv) (trust_level : Option Nat)
    (hit : List Char × ℚ) : Option SearchResultR :=
  match env.get_chunk_by_id hit.1 with
  | none => none
  | some chunk =>
    match env.get_source_by_id chunk.source_id with
    | none => none
    | some source =>
      match trust_level with
      | some tl =>
        if tl < source.trust_level then none
        else some (mkSearchResult chunk source hit.2)
      | none => some (mkSearchResult chunk source hit.2)

/-- `search(query, n_results, trust_level, source_ids)` from
`noctem/wiki/retrieval.py`: over-fetch `2 * n_results` hits, resolve and
filter them, sort stably by descending `weighted_score` (Python's stable
`list.sort(key=…, reverse=True)` is a stable merge sort), and return the
top `n_results`. -/

def search (env : SearchEnv) (query : List Char) (n_results : Nat)
    (trust_level : Option Nat) (source_ids : Option (List Nat)) :
    List SearchResultR :=
  let raw := env.rawSearch query (n_results * 2) source_ids
  let results := raw.filterMap (resolveHit env trust_level)
  let sorted := results.mergeSort
    (fun a b => decide (weighted_score b ≤ weighted_score a))
  sorted.take n_results

/-- Claim C2 (witness): at a concrete two-hit environment the three parts
of the ranking theorem hold for the computed result list. -/

def c2chunkA : KnowledgeChunkR :=
  { source_id := 1
    content := "Deep work requires long stretches of focus.".toList
    page_or_section := none
    token_count := 10 }

def c2chunkB : KnowledgeChunkR :=
  { source_id := 2
    content := "A personal note about focus practice.".toList
    page_or_section := none
    token_count := 9 }

def c2srcA : SourceR :=
  { id := 1, trust_level := 3, file_name := "web-article.md".toList }

def c2srcB : SourceR :=
  { id := 2, trust_level := 1, file_name := "my-notes.md".toList }

def c2env : SearchEnv :=
  { rawSearch := fun _ _ _ =>
      [("chA".toList, (4 : ℚ) / 5), ("chB".toList, (4 : ℚ) / 5)]
    get_chunk_by_id := fun cid =>
      if cid = "chA".toList then some c2chunkA
      else if cid = "chB".toList then some c2chunkB
      else none
    get_source_by_id := fun i =>
      if i = 1 then some c2srcA else if i = 2 then some c2srcB else none }

/-- A stale hit: its chunk id resolves to no relational row. -/

def c6envGood : SearchEnv :=
  { rawSearch := fun _ _ _ => [("chA".toList, (4 : ℚ) / 5)]
    get_chunk_by_id := c2env.get_chunk_by_id
    get_source_by_id := c2env.get_source_by_id }

def c6envStale : SearchEnv :=
  { rawSearch := fun _ _ _ =>
      [("gone".toList, (9 : ℚ) / 10), ("chA".toList, (4 : ℚ) / 5)]
    get_chunk_by_id := c2env.get_chunk_by_id
    get_source_by_id := c2env.get_source_by_id }

/-! ## get_context_for_query (noctem/wiki/retrieval.py, lines 125-173) -/

/-- Decimal digit characters of `n` (Python `str(i)` for the f-string
citation index).  Fuel-based long division; `n + 1` fuel always suffices. -/

def natReprGo : Nat → Nat → List Char → List Char
  | 0, _, acc => acc
  | fuel + 1, n, acc =>
    let d := Char.ofNat (48 + n % 10)
    if n < 10 then d :: acc else natReprGo fuel (n / 10) (d :: acc)

/-- Python `str(n)` for a natural number. -/

def natRepr (n : Nat) : List Char := natReprGo (n + 1) n []

/-- The fixed text between the citation index and the citation reference
in an assembled context part (`"] Source: "`). -/

def srcMark : List Char := "] Source: ".toList

/-- The separator `"\n---\n"` placed between context parts. -/

def ctxSep : List Char := "\n---\n".toList

/-- `result.chunk.token_count or (len(chunk_text) // 4)`: the stored
count, falling back to the length estimate when the stored count is
falsy. -/

def chunkTokens (r : SearchResultR) : Nat :=
  if r.chunk.token_count = 0 then r.chunk.content.length / 4
  else r.chunk.token_count

/-- The header `"[{i}] Source: "` of a context part. -/

def ctxHeader (i : Nat) : List Char :=
  '[' :: (natRepr i ++ srcMark)

/-- One assembled context part:
`f"[{i}] Source: {result.citation_ref}\n{chunk_text}\n"`. -/

def ctxPart (i : Nat) (r : SearchResultR) : List Char :=
  (ctxHeader i ++ r.citation_ref) ++ '\n' :: (r.chunk.content ++ '\n' :: [])

/-- The part-collecting loop of `get_context_for_query`: results are taken
in rank order; a result whose tokens would push the running total over
`max_tokens` triggers `break`, ending the whole loop. -/

def ctxLoop (max_tokens : Int) : Nat → Int → List SearchResultR →
    List (List Char)
  | _, _, [] => []
  | i, total, r :: rs =>
    let ct := chunkTokens r
    if total + (ct : Int) > max_tokens then []
    else ctxPart i r :: ctxLoop max_tokens (i + 1) (total + ct) rs

/-- `get_context_for_query(query, n_chunks, max_tokens, trust_level)`:
search, then greedily pack whole chunks under the token budget, join the
parts with `"\n---\n"`, and return the context together with exactly the
results used (`results[:len(context_parts)]`). -/

def get_context_for_query (env : SearchEnv) (query : List Char)
    (n_chunks : Nat) (max_tokens : Int) (trust_level : Option Nat) :
    List Char × List SearchResultR :=
  let results := search env query n_chunks trust_level none
  if results.isEmpty then ([], [])
  else
    let parts := ctxLoop max_tokens 1 0 results
    (List.intercalate ctxSep parts, results.take parts.length)

/-- A context line counted as a citation marker: it opens with `[` and
contains the fixed marker text `"] Source: "`. -/

def markerLine (l : List Char) : Bool :=
  decide (l.head? = some '[') && pyContains srcMark l

/-- The number of citation-marker lines in an assembled context. -/

def countMarkers (s : List Char) : Nat :=
  ((linesOf s).filter markerLine).length

/-- The single result used by the concrete context-assembly scenarios. -/

def c3chunk : KnowledgeChunkR :=
  { source_id := 1
    content := "Deep work requires long uninterrupted hours.".toList
    page_or_section := none
    token_count := 11 }

def c3src : SourceR :=
  { id := 1, trust_level := 1, file_name := "deep.md".toList }

def c3env : SearchEnv :=
  { rawSearch := fun _ _ _ => [("c3a".toList, (1 : ℚ))]
    get_chunk_by_id := fun cid =>
      if cid = "c3a".toList then some c3chunk else none
    get_source_by_id := fun i => if i = 1 then some c3src else none }

def c3result : SearchResultR := mkSearchResult c3chunk c3src (1 : ℚ)

/-! ### Source verification (`ingestion.verify_source`) -/

/-- A row of the `sources` table, restricted to the fields `verify_source`
reads or writes. -/

structure SourceRow where
  id : Nat
  file_path : List Char
  file_hash : List Char
  status : List Char
  error_message : Option (List Char)
  last_verified : Option Nat

/-- The filesystem and clock as `verify_source` sees them: `fileHash p`
is `some h` when the file at `p` exists with content hash `h`, `none`
when it is missing; `now` stands for `CURRENT_TIMESTAMP`. -/

structure VerifyEnv where
  fileHash : List Char → Option (List Char)
  now : Nat

/-- `ingestion.verify_source`: the row updates performed on the source's
row, paired with the returned boolean.  Missing file: status `failed`,
error message `File not found`, return `False`.  Otherwise
`last_verified` is set first; a hash mismatch then sets status `changed`
and returns `False`; an unchanged hash leaves the rest of the row alone
and returns `True`. -/

def verify_source (env : VerifyEnv) (s : SourceRow) : SourceRow × Bool :=
  match env.fileHash s.file_path with
  | none =>
    ({ s with status := "failed".toList
              error_message := some ("File not found".toList) }, false)
  | some current_hash =>
    let s1 := { s with last_verified := some env.now }
    if current_hash ≠ s.file_hash then
      ({ s1 with status := "changed".toList }, false)
    else
      (s1, true)

/-- A concrete source row for the verification scenarios. -/

def c5src : SourceRow :=
  { id := 7
    file_path := "notes.md".toList
    file_hash := "abc".toList
    status := "indexed".toList
    error_message := none
    last_verified := none }

/-- An environment in which `notes.md` exists with its stored hash. -/

def c5envSame : VerifyEnv :=
  { fileHash := fun p => if p = "notes.md".toList then some ("abc".toList) else none
    now := 42 }

/-! ### Markdown title extraction (`ingestion.extract_title_from_markdown`,
`ingestion.create_source`) -/

/-- The suffix of `l` starting at the LAST position whose character is not
a newline (`none` when every character is a newline).  Used to model the
backtracking of `\s+` in `^#\s+(.+)$` when the greedy run reaches the end
of the string. -/

def lastNonNlSuffix : List Char → Option (List Char)
  | [] => none
  | c :: t =>
    match lastNonNlSuffix t with
    | some s => some s
    | none => if c ≠ '\n' then some (c :: t) else none

/-- `re.match(r"^#\s+(.+)$", l, re.MULTILINE)`: anchored at position 0
(`re.match`), so it matches only when `l` starts with `#` followed by at
least one whitespace character and then a non-empty run of non-newline
characters; returns group 1.  When the greedy run of `\s+` reaches the end of
the string the engine backtracks until `.` can match a non-newline
whitespace character (`$` then holds before the following newline). -/

def matchH1At (l : List Char) : Option (List Char) :=
  match l with
  | '#' :: rest =>
    match rest.dropWhile pyIsSpace with
    | b :: brest =>
      if (rest.takeWhile pyIsSpace).isEmpty then none
      else some ((b :: brest).takeWhile (fun c => c ≠ '\n'))
    | [] =>
      match rest with
      | [] => none
      | _ :: t =>
        (lastNonNlSuffix t).map (fun s => s.takeWhile (fun c => c ≠ '\n'))
  | _ => none

/-- `ingestion.extract_title_from_markdown`: strip the content, apply the
anchored pattern, and strip group 1. -/

def extract_title_from_markdown (content : List Char) : Option (List Char) :=
  (matchH1At (pyStrip content)).map pyStrip

/-- The fields of the source row created by `create_source` that C8 is
about. -/

structure CreatedSource where
  title : List Char
  status : List Char

/-- `ingestion.create_source` on a markdown file with no explicit title:
the title is `extract_title_from_markdown(content)`, falling back to the
filename stem when that is `None` or empty (Python `if not title`); the
row is inserted with status `pending`. -/

def create_source_md (content stem : List Char) : CreatedSource :=
  { title :=
      match extract_title_from_markdown content with
      | some t => if t.isEmpty then stem else t
      | none => stem
    status := "pending".toList }

/-- Modelled from the words of the spec for C8: the title candidate is the
first level-1 heading occurring ANYWHERE in the content — the first line
of the form `#` + whitespace + non-empty body, on any line. -/

def specH1Line (l : List Char) : Option (List Char) :=
  match l with
  | '#' :: rest =>
    if (rest.takeWhile pyIsSpace).isEmpty ∨ (rest.dropWhile pyIsSpace).isEmpty
    then none
    else some (pyStrip (rest.dropWhile pyIsSpace))
  | _ => none

/-- Modelled from the words of the spec for C8: title selection using the
first H1 anywhere in the content, stem fallback otherwise. -/

def spec_title_md (content stem : List Char) : List Char :=
  match (linesOf content).findSome? specH1Line with
  | some t => if t.isEmpty then stem else t
  | none => stem

/-! ### Answer detection (`query.WikiAnswer.has_answer`) -/

/-- The fragment actually tested by `WikiAnswer.has_answer`. -/

def escape_fragment : List Char := "don't have enough information".toList

/-- Modelled from the words of the spec for C9: the full canonical escape
phrase dictated by `WIKI_QA_SYSTEM_PROMPT`. -/

def canonical_escape_phrase : List Char :=
  "I don't have enough information in my sources to answer this question.".toList

/-- `WikiAnswer.has_answer`:
`bool(self.answer and "don't have enough information" not in self.answer.lower())` —
the answer is non-empty and its lower-casing does not contain the
FRAGMENT `escape_fragment`. -/

def has_answer (answer : List Char) : Bool :=
  !answer.isEmpty && !pyContains escape_fragment (pyLower answer)

/-! ### Source discovery (`ingestion.discover_new_sources`) -/

/-- `wiki.SUPPORTED_EXTENSIONS` (from `noctem/wiki/__init__.py`):
`{".pdf", ".md", ".txt"}`, as a list (iteration order of the Python set
does not affect the properties below). -/

def SUPPORTED_EXTENSIONS : List (List Char) :=
  [".pdf".toList, ".md".toList, ".txt".toList]

/-- `directory.glob(f"*{ext}")`: entries (paths as component lists
relative to the scanned directory) directly in the directory whose name
ends with `ext`. -/

def matchesFlat (ext : List Char) (e : List (List Char)) : Bool :=
  match e with
  | [name] => decide (ext <:+ name)
  | _ => false

/-- `directory.glob(f"**/*{ext}")`: entries at ANY depth — `**` matches
zero or more directories, so top-level files match too — whose final
component ends with `ext`. -/

def matchesRec (ext : List Char) (e : List (List Char)) : Bool :=
  match e.getLast? with
  | some name => decide (ext <:+ name)
  | none => false

/-- `ingestion.discover_new_sources`: for each supported extension,
extend `all_files` with the non-recursive glob and then the recursive
glob; finally keep the files whose resolved path is not tracked. -/

def discover_new_sources (files : List (List (List Char)))
    (tracked : List Char → Bool) (resolve : List (List Char) → List Char) :
    List (List (List Char)) :=
  ((SUPPORTED_EXTENSIONS.map (fun ext =>
      files.filter (matchesFlat ext) ++ files.filter (matchesRec ext))).flatten).filter
    (fun f => !tracked (resolve f))

/-! ## Theorems -/

/-! ## Token lemmas

`pyTokens` is the specification-side notion of "maximal whitespace-delimited
token".  The lemmas below show how it interacts with stripping, whitespace
separators and the slicing performed by the chunker. -/

theorem pyTokens_nil : pyTokens [] = [] := by
  simp [pyTokens]

theorem pyTokens_cons_ws {c : Char} (l : List Char) (hc : pyIsSpace c = true) :
    pyTokens (c :: l) = pyTokens l := by
  rw [pyTokens]
  simp [hc]

theorem pyTokens_cons_nonws {c : Char} (l : List Char)
    (hc : pyIsSpace c = false) :
    pyTokens (c :: l) =
      (c :: l.takeWhile (fun d => !pyIsSpace d)) ::
        pyTokens (l.dropWhile (fun d => !pyIsSpace d)) := by
  rw [pyTokens]
  simp [hc]

theorem takeWhile_append_mid {p : Char → Bool} {w : Char} (hw : p w = false)
    (xs ys : List Char) :
    (xs ++ w :: ys).takeWhile p = xs.takeWhile p := by
  induction xs with
  | nil => simp [List.takeWhile, hw]
  | cons x xs ih =>
    by_cases hx : p x
    · simp [List.takeWhile, hx, ih]
    · simp [List.takeWhile, hx]

theorem dropWhile_append_mid {p : Char → Bool} {w : Char} (hw : p w = false)
    (xs ys : List Char) :
    (xs ++ w :: ys).dropWhile p = xs.dropWhile p ++ w :: ys := by
  induction xs with
  | nil => simp [List.dropWhile, hw]
  | cons x xs ih =>
    by_cases hx : p x
    · simp [List.dropWhile, hx, ih]
    · simp [List.dropWhile, hx]

theorem pyTokens_append_ws_cons {w : Char} (hw : pyIsSpace w = true) :
    ∀ xs ys : List Char, pyTokens (xs ++ w :: ys) = pyTokens xs ++ pyTokens ys
  | [], ys => by
    rw [List.nil_append, pyTokens_nil, List.nil_append, pyTokens_cons_ws _ hw]
  | x :: xs, ys => by
    by_cases hx : pyIsSpace x
    · rw [List.cons_append, pyTokens_cons_ws _ hx, pyTokens_cons_ws _ hx]
      exact pyTokens_append_ws_cons hw xs ys
    · rw [List.cons_append,
        pyTokens_cons_nonws _ (Bool.not_eq_true _ ▸ hx),
        pyTokens_cons_nonws _ (Bool.not_eq_true _ ▸ hx)]
      have hwb : (fun d => !pyIsSpace d) w = false := by simp [hw]
      rw [takeWhile_append_mid hwb, dropWhile_append_mid hwb]
      rw [List.cons_append]
      congr 1
      exact pyTokens_append_ws_cons hw (xs.dropWhile (fun d => !pyIsSpace d)) ys
termination_by xs => xs.length
decreasing_by
  all_goals
    simp only [List.length_cons]
    refine Nat.lt_succ_of_le ?_
    first
      | exact Nat.le_refl _
      | exact (List.dropWhile_sublist _).length_le

theorem pyTokens_all_ws {l : List Char} (h : ∀ c ∈ l, pyIsSpace c = true) :
    pyTokens l = [] := by
  induction l with
  | nil => exact pyTokens_nil
  | cons c cs ih =>
    rw [pyTokens_cons_ws _ (h c (List.mem_cons_self c cs))]
    exact ih (fun d hd => h d (List.mem_cons_of_mem c hd))

theorem pyTokens_ws_append {ws ys : List Char}
    (h : ∀ c ∈ ws, pyIsSpace c = true) :
    pyTokens (ws ++ ys) = pyTokens ys := by
  induction ws with
  | nil => rw [List.nil_append]
  | cons w rest ih =>
    rw [List.cons_append, pyTokens_cons_ws _ (h w (List.mem_cons_self w rest))]
    exact ih (fun d hd => h d (List.mem_cons_of_mem w hd))

theorem pyTokens_append_ws {xs zs : List Char}
    (h : ∀ c ∈ zs, pyIsSpace c = true) :
    pyTokens (xs ++ zs) = pyTokens xs := by
  match zs, h with
  | [], _ => rw [List.append_nil]
  | w :: zs, h =>
    rw [pyTokens_append_ws_cons (h w (List.mem_cons_self w zs)) xs zs,
      pyTokens_all_ws (fun d hd => h d (List.mem_cons_of_mem w hd)),
      List.append_nil]

theorem pyTokens_append_sep {sep : List Char} (hne : sep ≠ [])
    (hws : ∀ c ∈ sep, pyIsSpace c = true) (xs ys : List Char) :
    pyTokens (xs ++ sep ++ ys) = pyTokens xs ++ pyTokens ys := by
  match sep, hne with
  | w :: sep, _ =>
    rw [List.append_assoc, List.cons_append,
      pyTokens_append_ws_cons (hws w (List.mem_cons_self w sep)) xs (sep ++ ys),
      pyTokens_ws_append (fun d hd => hws d (List.mem_cons_of_mem w hd))]

theorem pyTokens_strip (l : List Char) : pyTokens (pyStrip l) = pyTokens l := by
  unfold pyStrip
  have h1 : pyTokens l = pyTokens (l.dropWhile pyIsSpace) := by
    conv_lhs => rw [← List.takeWhile_append_dropWhile pyIsSpace l]
    exact pyTokens_ws_append (fun c hc => List.mem_takeWhile_imp hc)
  set m := l.dropWhile pyIsSpace with hm
  have h2 : m = (m.reverse.dropWhile pyIsSpace).reverse ++
      (m.reverse.takeWhile pyIsSpace).reverse := by
    conv_lhs => rw [← List.reverse_reverse m,
      ← List.takeWhile_append_dropWhile pyIsSpace m.reverse]
    rw [List.reverse_append]
  rw [h1]
  conv_rhs => rw [h2]
  exact (pyTokens_append_ws (fun c hc =>
    List.mem_takeWhile_imp (List.mem_reverse.mp hc))).symm

theorem pyTokens_of_strip_empty {l : List Char} (h : pyStrip l = []) :
    pyTokens l = [] := by
  rw [← pyTokens_strip l, h, pyTokens_nil]

theorem nn_ws : ∀ c ∈ nn, pyIsSpace c = true := by decide

theorem nn_ne_nil : nn ≠ [] := by decide

theorem pyTokens_glue (xs ys : List Char) :
    pyTokens (xs ++ nn ++ ys) = pyTokens xs ++ pyTokens ys :=
  pyTokens_append_sep nn_ne_nil nn_ws xs ys

/-! ## Specifications of the break finders

Whatever `findBreak` or `findSentBreak` matches is a non-empty all-whitespace
run inside the scanned text; that is all the token lemmas need to know. -/

theorem lastNewlineIdx_lt :
    ∀ {l : List Char} {j : Nat}, lastNewlineIdx l = some j → j < l.length
  | [], j, h => by simp [lastNewlineIdx] at h
  | c :: cs, j, h => by
    rw [lastNewlineIdx] at h
    match hrec : lastNewlineIdx cs with
    | some j0 =>
      rw [hrec] at h
      cases h
      have := lastNewlineIdx_lt hrec
      simp only [List.length_cons]
      omega
    | none =>
      rw [hrec] at h
      by_cases hc : c = '\n'
      · simp only [hc, if_true] at h
        cases h
        simp
      · simp [hc] at h

theorem shifted_break {o : Option (Nat × Nat)} {s e : Nat}
    (h : o.map (fun p => (p.1 + 1, p.2 + 1)) = some (s, e)) :
    ∃ s0 e0, o = some (s0, e0) ∧ s = s0 + 1 ∧ e = e0 + 1 := by
  match o with
  | none => simp at h
  | some (s0, e0) =>
    simp only [Option.map_some'] at h
    cases h
    exact ⟨s0, e0, rfl, rfl, rfl⟩

theorem mem_take_takeWhile {p : Char → Bool} {cs : List Char} {n : Nat}
    (hn : n ≤ (cs.takeWhile p).length) {d : Char} (hd : d ∈ cs.take n) :
    p d = true := by
  obtain ⟨t, ht⟩ := cs.takeWhile_prefix (p := p)
  have htake : cs.take n = (cs.takeWhile p).take n := by
    conv_lhs => rw [← ht]
    rw [List.take_append_eq_append_take, Nat.sub_eq_zero_of_le hn,
      List.take_zero, List.append_nil]
  rw [htake] at hd
  exact List.mem_takeWhile_imp (List.take_subset n _ hd)

theorem findBreak_spec :
    ∀ {l : List Char} {s e : Nat}, findBreak l = some (s, e) →
      s + 2 ≤ e ∧ e ≤ l.length ∧
        ∀ c ∈ (l.drop s).take (e - s), pyIsSpace c = true
  | [], s, e, h => by simp [findBreak] at h
  | c :: cs, s, e, h => by
    rw [findBreak] at h
    have shiftCase :
        (findBreak cs).map (fun p => (p.1 + 1, p.2 + 1)) = some (s, e) →
        s + 2 ≤ e ∧ e ≤ (c :: cs).length ∧
          ∀ d ∈ ((c :: cs).drop s).take (e - s), pyIsSpace d = true := by
      intro hsh
      obtain ⟨s0, e0, ho, hs, he⟩ := shifted_break hsh
      obtain ⟨h1, h2, h3⟩ := findBreak_spec ho
      subst hs; subst he
      refine ⟨by omega, by simp only [List.length_cons]; omega, ?_⟩
      intro d hd
      rw [List.drop_succ_cons, show e0 + 1 - (s0 + 1) = e0 - s0 by omega] at hd
      exact h3 d hd
    by_cases hc : c = '\n'
    · rw [if_pos hc] at h
      match hj : lastNewlineIdx (cs.takeWhile pyIsSpace) with
      | some j =>
        rw [hj] at h
        cases h
        have hjlen : j < (cs.takeWhile pyIsSpace).length := lastNewlineIdx_lt hj
        have hcs : (cs.takeWhile pyIsSpace).length ≤ cs.length :=
          (cs.takeWhile_sublist (p := pyIsSpace)).length_le
        refine ⟨by omega, by simp only [List.length_cons]; omega, ?_⟩
        intro d hd
        simp only [Nat.sub_zero, List.drop_zero, List.take_succ_cons] at hd
        rcases List.mem_cons.mp hd with h1 | h1
        · subst h1; rw [hc]; decide
        · exact mem_take_takeWhile (by omega) h1
      | none =>
        rw [hj] at h
        exact shiftCase h
    · rw [if_neg hc] at h
      exact shiftCase h

theorem findSentBreak_spec :
    ∀ {prev : Option Char} {l : List Char} {s e : Nat},
      findSentBreak prev l = some (s, e) →
      s < e ∧ e ≤ l.length ∧ ∀ c ∈ (l.drop s).take (e - s), pyIsSpace c = true
  | prev, [], s, e, h => by simp [findSentBreak] at h
  | prev, c :: cs, s, e, h => by
    rw [findSentBreak] at h
    by_cases hcond : pyIsSpace c &&
        (prev = some '.' || prev = some '!' || prev = some '?')
    · rw [if_pos hcond] at h
      cases h
      have hcws : pyIsSpace c = true := (Bool.and_eq_true ..).mp hcond |>.1
      have hcs : (cs.takeWhile pyIsSpace).length ≤ cs.length :=
        (cs.takeWhile_sublist (p := pyIsSpace)).length_le
      refine ⟨by omega, by simp only [List.length_cons]; omega, ?_⟩
      intro d hd
      simp only [Nat.sub_zero, List.drop_zero] at hd
      rw [show 1 + (cs.takeWhile pyIsSpace).length =
        (cs.takeWhile pyIsSpace).length + 1 by omega, List.take_succ_cons] at hd
      rcases List.mem_cons.mp hd with h1 | h1
      · subst h1; exact hcws
      · exact mem_take_takeWhile (Nat.le_refl _) h1
    · rw [if_neg hcond] at h
      obtain ⟨s0, e0, ho, hs, he⟩ := shifted_break h
      obtain ⟨h1, h2, h3⟩ := findSentBreak_spec ho
      subst hs; subst he
      refine ⟨by omega, by simp only [List.length_cons]; omega, ?_⟩
      intro d hd
      rw [List.drop_succ_cons, show e0 + 1 - (s0 + 1) = e0 - s0 by omega] at hd
      exact h3 d hd

/-! ## The paragraph and sentence splitters preserve tokens -/

theorem seg_decomp {l : List Char} {s e : Nat} (hse : s ≤ e) :
    l = l.take s ++ ((l.drop s).take (e - s) ++ l.drop e) := by
  conv_lhs => rw [← List.take_append_drop s l]
  congr 1
  conv_lhs => rw [← List.take_append_drop (e - s) (l.drop s)]
  congr 1
  rw [List.drop_drop, show s + (e - s) = e by omega]

theorem pyTokens_cut {l : List Char} {s e : Nat} (h1 : s < e)
    (h2 : e ≤ l.length)
    (h3 : ∀ c ∈ (l.drop s).take (e - s), pyIsSpace c = true) :
    pyTokens l = pyTokens (l.take s) ++ pyTokens (l.drop e) := by
  have hlen : ((l.drop s).take (e - s)).length = e - s := by
    rw [List.length_take, List.length_drop]
    omega
  have hne : (l.drop s).take (e - s) ≠ [] := by
    intro hnil
    rw [hnil] at hlen
    simp only [List.length_nil] at hlen
    omega
  have hdec := seg_decomp (l := l) (s := s) (e := e) (show s ≤ e by omega)
  conv_lhs => rw [hdec, ← List.append_assoc]
  exact pyTokens_append_sep hne h3 _ _

theorem splitParasGo_tokens :
    ∀ (fuel : Nat) (l : List Char) (off : Nat), l.length < fuel →
      pyTokens l =
        ((splitParasGo fuel l off).map (fun p => pyTokens p.1)).flatten
  | 0, l, off, h => by omega
  | fuel + 1, l, off, h => by
    rw [splitParasGo]
    match hfb : findBreak l with
    | none =>
      by_cases hemp : l.isEmpty
      · rw [List.isEmpty_iff.mp hemp]
        simp [pyTokens_nil]
      · simp only [Bool.not_eq_true] at hemp
        rw [hemp, Bool.false_or]
        by_cases hstrip : (pyStrip l).isEmpty
        · rw [if_pos hstrip, pyTokens_of_strip_empty (List.isEmpty_iff.mp hstrip)]
          rfl
        · rw [if_neg hstrip]
          simp [pyTokens_strip]
    | some (s, e) =>
      obtain ⟨h1, h2, h3⟩ := findBreak_spec hfb
      have hcut : pyTokens l = pyTokens (l.take s) ++ pyTokens (l.drop e) :=
        pyTokens_cut (by omega) h2 h3
      have hrec : pyTokens (l.drop e) =
          ((splitParasGo fuel (l.drop e) (off + e)).map
            (fun p => pyTokens p.1)).flatten := by
        refine splitParasGo_tokens fuel (l.drop e) (off + e) ?_
        rw [List.length_drop]
        omega
      rw [List.map_append, List.flatten_append, ← hrec]
      by_cases hstrip : (pyStrip (l.take s)).isEmpty
      · rw [if_pos hstrip]
        rw [hcut, pyTokens_of_strip_empty (List.isEmpty_iff.mp hstrip)]
        rfl
      · rw [if_neg hstrip]
        rw [hcut]
        simp [pyTokens_strip]

theorem split_into_paragraphs_tokens (l : List Char) :
    pyTokens l =
      ((split_into_paragraphs l).map (fun p => pyTokens p.1)).flatten :=
  splitParasGo_tokens (l.length + 1) l 0 (Nat.lt_succ_self _)

theorem splitSentsGo_tokens :
    ∀ (fuel : Nat) (prev : Option Char) (l : List Char) (off : Nat),
      l.length < fuel →
      pyTokens l =
        ((splitSentsGo fuel prev l off).map (fun p => pyTokens p.1)).flatten
  | 0, prev, l, off, h => by omega
  | fuel + 1, prev, l, off, h => by
    rw [splitSentsGo]
    match hfb : findSentBreak prev l with
    | none =>
      by_cases hemp : l.isEmpty
      · rw [List.isEmpty_iff.mp hemp]
        simp [pyTokens_nil]
      · simp only [Bool.not_eq_true] at hemp
        rw [hemp, Bool.false_or]
        by_cases hstrip : (pyStrip l).isEmpty
        · rw [if_pos hstrip, pyTokens_of_strip_empty (List.isEmpty_iff.mp hstrip)]
          rfl
        · rw [if_neg hstrip]
          simp [pyTokens_strip]
    | some (s, e) =>
      obtain ⟨h1, h2, h3⟩ := findSentBreak_spec hfb
      have hcut : pyTokens l = pyTokens (l.take s) ++ pyTokens (l.drop e) :=
        pyTokens_cut h1 h2 h3
      have hslice : pyTokens (l.take (s + 1)) = pyTokens (l.take s) := by
        have hs : s < l.length := by omega
        rw [List.take_succ]
        refine pyTokens_append_ws ?_
        intro d hd
        have hget : l[s]? = some l[s] := List.getElem?_eq_getElem hs
        rw [hget] at hd
        simp only [Option.toList_some, List.mem_singleton] at hd
        subst hd
        refine h3 _ ?_
        have hdrop : l.drop s = l[s] :: l.drop (s + 1) :=
          List.drop_eq_getElem_cons hs
        rw [hdrop, show e - s = (e - s - 1) + 1 by omega, List.take_succ_cons]
        exact List.mem_cons_self _ _
      have hrec : pyTokens (l.drop e) =
          ((splitSentsGo fuel (l[e - 1]?) (l.drop e) (off + e)).map
            (fun p => pyTokens p.1)).flatten := by
        refine splitSentsGo_tokens fuel _ (l.drop e) (off + e) ?_
        rw [List.length_drop]
        omega
      rw [List.map_append, List.flatten_append, ← hrec]
      by_cases hstrip : (pyStrip (l.take (s + 1))).isEmpty
      · rw [if_pos hstrip]
        have : pyTokens (l.take s) = [] := by
          rw [← hslice, pyTokens_of_strip_empty (List.isEmpty_iff.mp hstrip)]
        rw [hcut, this]
        rfl
      · rw [if_neg hstrip]
        rw [hcut, ← hslice]
        simp [pyTokens_strip]

theorem split_into_sentences_tokens (l : List Char) :
    pyTokens l =
      ((split_into_sentences l).map (fun p => pyTokens p.1)).flatten :=
  splitSentsGo_tokens (l.length + 1) none l 0 (Nat.lt_succ_self _)

theorem tokensOfChunks_nil : tokensOfChunks [] = [] := rfl

theorem tokensOfChunks_cons (c : TextChunk) (cs : List TextChunk) :
    tokensOfChunks (c :: cs) = pyTokens c.content ++ tokensOfChunks cs := by
  simp [tokensOfChunks]

theorem tokensOfChunks_append (a b : List TextChunk) :
    tokensOfChunks (a ++ b) = tokensOfChunks a ++ tokensOfChunks b := by
  simp [tokensOfChunks]

theorem tokensOfChunks_snoc (a : List TextChunk) (c : TextChunk) :
    tokensOfChunks (a ++ [c]) = tokensOfChunks a ++ pyTokens c.content := by
  rw [tokensOfChunks_append, tokensOfChunks_cons, tokensOfChunks_nil,
    List.append_nil]

theorem pyTokens_glue_space (xs ys : List Char) :
    pyTokens (xs ++ [' '] ++ ys) = pyTokens xs ++ pyTokens ys :=
  pyTokens_append_sep (by decide) (by decide) xs ys

theorem finalizeChunk_content (text : List Char) (st : ChunkAcc) :
    (finalizeChunk text st).content = pyStrip st.cur := rfl

theorem chunkStep_inv (text : List Char) (max_tokens overlap_chars : Int)
    (st : ChunkAcc) (p : List Char × Nat) :
    ((tokensOfChunks st.chunks ++ pyTokens st.cur) ++ pyTokens p.1).Sublist
      (tokensOfChunks (chunkStep text max_tokens overlap_chars st p).chunks ++
        pyTokens (chunkStep text max_tokens overlap_chars st p).cur) := by
  unfold chunkStep
  by_cases hbig : st.cur ≠ [] ∧
      ((estimate_tokens st.cur : Int) + (estimate_tokens p.1 : Int) > max_tokens)
  · rw [if_pos hbig]
    by_cases hov : 0 < overlap_chars ∧ overlap_chars < (st.cur.length : Int)
    · rw [if_pos hov]
      dsimp only
      rw [tokensOfChunks_snoc, finalizeChunk_content, pyTokens_strip,
        pyTokens_glue]
      exact (List.sublist_append_right _ _).append_left _
    · rw [if_neg hov]
      dsimp only
      rw [tokensOfChunks_snoc, finalizeChunk_content, pyTokens_strip]
  · rw [if_neg hbig]
    by_cases hcur : st.cur ≠ []
    · rw [if_pos hcur]
      dsimp only
      rw [pyTokens_glue, ← List.append_assoc]
    · rw [if_neg hcur]
      dsimp only
      rw [not_not] at hcur
      rw [hcur, pyTokens_nil, List.append_nil]

theorem chunkFold_inv (text : List Char) (max_tokens overlap_chars : Int) :
    ∀ (ps : List (List Char × Nat)) (st : ChunkAcc),
      ((tokensOfChunks st.chunks ++ pyTokens st.cur) ++
        (ps.map (fun p => pyTokens p.1)).flatten).Sublist
        (tokensOfChunks
            (ps.foldl (chunkStep text max_tokens overlap_chars) st).chunks ++
          pyTokens (ps.foldl (chunkStep text max_tokens overlap_chars) st).cur)
  | [], st => by
    rw [List.map_nil, List.flatten_nil, List.append_nil, List.foldl_nil]
  | p :: ps, st => by
    rw [List.map_cons, List.flatten_cons, List.foldl_cons, ← List.append_assoc]
    refine List.Sublist.trans ?_
      (chunkFold_inv text max_tokens overlap_chars ps
        (chunkStep text max_tokens overlap_chars st p))
    exact (chunkStep_inv text max_tokens overlap_chars st p).append_right _

theorem mergeRun_tokens (min_tokens : Int) :
    ∀ (rest : List TextChunk) (cur : TextChunk),
      tokensOfChunks (mergeRun min_tokens cur rest) =
        pyTokens cur.content ++ tokensOfChunks rest
  | [], cur => by
    rw [mergeRun, tokensOfChunks_cons, tokensOfChunks_nil]
  | next :: rest, cur => by
    rw [mergeRun]
    split
    · rw [mergeRun_tokens min_tokens rest]
      dsimp only
      rw [pyTokens_glue, tokensOfChunks_cons, List.append_assoc]
    · rw [tokensOfChunks_cons, mergeRun_tokens min_tokens rest,
        tokensOfChunks_cons]

theorem mergeSmallChunks_tokens (chunks : List TextChunk) (min_tokens : Int) :
    tokensOfChunks (mergeSmallChunks chunks min_tokens) =
      tokensOfChunks chunks := by
  unfold mergeSmallChunks
  split
  · rfl
  · match chunks with
    | [] => rfl
    | c :: rest => rw [mergeRun_tokens, tokensOfChunks_cons]

theorem splitSentStep_inv (chunk : TextChunk) (max_tokens : Int)
    (acc : List TextChunk × List Char × Int) (sp : List Char × Nat) :
    tokensOfChunks (splitSentStep chunk max_tokens acc sp).1 ++
      pyTokens (splitSentStep chunk max_tokens acc sp).2.1 =
      (tokensOfChunks acc.1 ++ pyTokens acc.2.1) ++ pyTokens sp.1 := by
  unfold splitSentStep
  by_cases hbig : acc.2.1 ≠ [] ∧
      ((estimate_tokens acc.2.1 : Int) + (estimate_tokens sp.1 : Int) >
        max_tokens)
  · rw [if_pos hbig]
    dsimp only
    rw [tokensOfChunks_snoc]
    show tokensOfChunks acc.1 ++ pyTokens (pyStrip acc.2.1) ++ pyTokens sp.1 = _
    rw [pyTokens_strip]
  · rw [if_neg hbig]
    by_cases hcur : acc.2.1 ≠ []
    · rw [if_pos hcur]
      dsimp only
      rw [pyTokens_glue_space, ← List.append_assoc]
    · rw [if_neg hcur]
      dsimp only
      rw [not_not] at hcur
      rw [hcur, pyTokens_nil, List.append_nil]

theorem splitSentFold_inv (chunk : TextChunk) (max_tokens : Int) :
    ∀ (sps : List (List Char × Nat)) (acc : List TextChunk × List Char × Int),
      tokensOfChunks (sps.foldl (splitSentStep chunk max_tokens) acc).1 ++
        pyTokens (sps.foldl (splitSentStep chunk max_tokens) acc).2.1 =
        (tokensOfChunks acc.1 ++ pyTokens acc.2.1) ++
          (sps.map (fun p => pyTokens p.1)).flatten
  | [], acc => by
    rw [List.map_nil, List.flatten_nil, List.append_nil, List.foldl_nil]
  | sp :: sps, acc => by
    rw [List.map_cons, List.flatten_cons, List.foldl_cons,
      splitSentFold_inv chunk max_tokens sps, splitSentStep_inv,
      List.append_assoc]

theorem splitLargeOne_tokens (max_tokens : Int) (chunk : TextChunk) :
    tokensOfChunks (splitLargeOne max_tokens chunk) =
      pyTokens chunk.content := by
  unfold splitLargeOne
  split
  · rw [tokensOfChunks_cons, tokensOfChunks_nil, List.append_nil]
  · have hfold := splitSentFold_inv chunk max_tokens
      (split_into_sentences chunk.content) ([], [], chunk.start_char)
    rw [tokensOfChunks_nil, pyTokens_nil, List.append_nil,
      List.nil_append] at hfold
    rw [← split_into_sentences_tokens] at hfold
    dsimp only
    split
    · next hstrip =>
      have hnil : pyTokens
          ((List.foldl (splitSentStep chunk max_tokens)
            ([], [], chunk.start_char)
            (split_into_sentences chunk.content)).2.1) = [] :=
        pyTokens_of_strip_empty (List.isEmpty_iff.mp hstrip)
      rw [hnil, List.append_nil] at hfold
      exact hfold
    · next hstrip =>
      rw [tokensOfChunks_snoc]
      show tokensOfChunks _ ++ pyTokens (pyStrip _) = _
      rw [pyTokens_strip]
      exact hfold

theorem splitLargeChunks_tokens (chunks : List TextChunk) (max_tokens : Int) :
    tokensOfChunks (splitLargeChunks chunks max_tokens) =
      tokensOfChunks chunks := by
  induction chunks with
  | nil => rfl
  | cons c cs ih =>
    unfold splitLargeChunks at ih ⊢
    rw [List.map_cons, List.flatten_cons, tokensOfChunks_append, ih,
      tokensOfChunks_cons, splitLargeOne_tokens]

theorem reindexAux_tokens (n : Nat) (cs : List TextChunk) :
    tokensOfChunks ((List.enumFrom n cs).map
      (fun ic => { ic.2 with chunk_index := ic.1 })) = tokensOfChunks cs := by
  induction cs generalizing n with
  | nil => rfl
  | cons c cs ih =>
    rw [show List.enumFrom n (c :: cs) = (n, c) :: List.enumFrom (n + 1) cs
      from rfl]
    rw [List.map_cons, tokensOfChunks_cons, tokensOfChunks_cons, ih]

theorem reindex_tokens (chunks : List TextChunk) :
    tokensOfChunks (reindexChunks chunks) = tokensOfChunks chunks := by
  unfold reindexChunks
  exact reindexAux_tokens 0 chunks

theorem pipeline_tokens (chunks : List TextChunk) (min_tokens max_tokens : Int) :
    tokensOfChunks (reindexChunks
      (splitLargeChunks (mergeSmallChunks chunks min_tokens) max_tokens)) =
      tokensOfChunks chunks := by
  rw [reindex_tokens, splitLargeChunks_tokens, mergeSmallChunks_tokens]

/-- Claim C1.  For every input text and every choice of `file_type`,
`min_tokens`, `max_tokens` and `overlap_tokens`, the non-whitespace tokens
of the input, in order, form a sublist of the concatenation (in chunk
order) of the chunks' token lists: chunking drops no token of the input,
though overlap may duplicate text. -/

theorem chunk_text_preserves_tokens (text file_type : List Char)
    (min_tokens max_tokens overlap_tokens : Int) :
    (pyTokens text).Sublist
      (tokensOfChunks
        (chunk_text text file_type min_tokens max_tokens overlap_tokens)) := by
  unfold chunk_text
  by_cases h0 : (pyStrip text).isEmpty
  · rw [if_pos h0, pyTokens_of_strip_empty (List.isEmpty_iff.mp h0)]
    exact List.nil_sublist _
  · rw [if_neg h0]
    dsimp only
    rw [pipeline_tokens]
    generalize hP : (if (split_into_paragraphs text).isEmpty
      then [(pyStrip text, 0)] else split_into_paragraphs text) = P
    have hA : (P.map (fun p => pyTokens p.1)).flatten = pyTokens text := by
      rw [← hP]
      by_cases hpar : (split_into_paragraphs text).isEmpty
      · rw [if_pos hpar, List.map_cons, List.map_nil, List.flatten_cons,
          List.flatten_nil, List.append_nil]
        exact pyTokens_strip text
      · rw [if_neg hpar]
        exact (split_into_paragraphs_tokens text).symm
    have hfold := chunkFold_inv text max_tokens (tokens_to_chars overlap_tokens)
      P ⟨[], 0, [], 0⟩
    rw [show tokensOfChunks (ChunkAcc.mk [] 0 [] 0).chunks = [] from rfl,
      show pyTokens (ChunkAcc.mk [] 0 [] 0).cur = [] from pyTokens_nil,
      List.append_nil, List.nil_append, hA] at hfold
    generalize hst : P.foldl
      (chunkStep text max_tokens (tokens_to_chars overlap_tokens))
      ⟨[], 0, [], 0⟩ = st at hfold ⊢
    by_cases hf : (pyStrip st.cur).isEmpty
    · rw [if_pos hf]
      have : pyTokens st.cur = [] :=
        pyTokens_of_strip_empty (List.isEmpty_iff.mp hf)
      rw [this, List.append_nil] at hfold
      exact hfold
    · rw [if_neg hf]
      rw [tokensOfChunks_snoc, finalizeChunk_content, pyTokens_strip]
      exact hfold

/-! ## Claim C4: the merge-repair pass -/

theorem mergeRun_ne_nil (min_tokens : Int) :
    ∀ (rest : List TextChunk) (cur : TextChunk),
      mergeRun min_tokens cur rest ≠ []
  | [], cur => by rw [mergeRun]; exact List.cons_ne_nil _ _
  | next :: rest, cur => by
    rw [mergeRun]
    split
    · exact mergeRun_ne_nil min_tokens rest _
    · exact List.cons_ne_nil _ _

theorem mergeRun_floor (min_tokens : Int) :
    ∀ (rest : List TextChunk) (cur : TextChunk),
      ∀ c ∈ (mergeRun min_tokens cur rest).dropLast,
        min_tokens ≤ (c.token_count : Int)
  | [], cur => by
    rw [mergeRun]
    intro c hc
    simp at hc
  | next :: rest, cur => by
    rw [mergeRun]
    split
    · exact mergeRun_floor min_tokens rest _
    · next hbig =>
      intro c hc
      rw [List.dropLast_cons_of_ne_nil (mergeRun_ne_nil min_tokens rest next)]
        at hc
      rcases List.mem_cons.mp hc with h1 | h1
      · subst h1
        omega
      · exact mergeRun_floor min_tokens rest next c h1

/-- Claim C4 (amended).  After `_merge_small_chunks`, every chunk except
possibly the last meets the `min_tokens` floor: a too-small chunk absorbs
its successors until it reaches the floor, but a below-floor run at the
tail of the list is NOT merged into its predecessor and may remain below
the floor. -/

theorem mergeSmallChunks_floor (chunks : List TextChunk) (min_tokens : Int) :
    ∀ c ∈ (mergeSmallChunks chunks min_tokens).dropLast,
      min_tokens ≤ (c.token_count : Int) := by
  unfold mergeSmallChunks
  split
  · next hlen =>
    intro c hc
    match chunks, hlen with
    | [], _ => simp at hc
    | [x], _ => simp at hc
  · match chunks with
    | [] => intro c hc; simp at hc
    | x :: rest => exact mergeRun_floor min_tokens rest x

/-- Claim C4 (counterexample).  With floor 10, the pass returns the
two-chunk list unchanged: the output has more than one chunk yet its tail
chunk stays below the floor, so a below-floor chunk at the tail is NOT
merged into its predecessor as the claim states. -/

theorem mergeSmallChunks_keeps_small_tail :
    mergeSmallChunks [c4big, c4small] 10 = [c4big, c4small] ∧
      1 < (mergeSmallChunks [c4big, c4small] 10).length ∧
      (c4small.token_count : Int) < 10 := by
  refine ⟨?_, ?_, ?_⟩ <;> decide

/-- Claim C4 (witness).  At the concrete two-chunk input, the amended
theorem yields the floor bound for the (unique) non-tail chunk. -/

theorem mergeSmallChunks_floor_witness :
    (10 : Int) ≤ (c4big.token_count : Int) :=
  mergeSmallChunks_floor [c4big, c4small] 10 c4big (by decide)

/-! ## Claim C7: the markdown scenario (supporting lemmas)

The scenario text is `"# Intro\n\n" + "word " * 500`.  Its result is
computed by equational reasoning (the repeated body is handled
algebraically, not by brute-force evaluation). -/

theorem flatten_replicate_succ (n : Nat) (w : List Char) :
    (List.replicate (n + 1) w).flatten = w ++ (List.replicate n w).flatten := by
  rw [List.replicate_succ, List.flatten_cons]

theorem flatten_replicate_length (n : Nat) (w : List Char) :
    ((List.replicate n w).flatten).length = n * w.length := by
  induction n with
  | zero => simp
  | succ n ih =>
    rw [flatten_replicate_succ, List.length_append, ih]
    ring

theorem mem_flatten_replicate {n : Nat} {w : List Char} {c : Char}
    (h : c ∈ (List.replicate n w).flatten) : c ∈ w := by
  obtain ⟨l, hl, hc⟩ := List.mem_flatten.mp h
  rwa [(List.eq_of_mem_replicate hl : l = w)] at hc

theorem flatten_replicate_snoc (n : Nat) (w : List Char) :
    (List.replicate n w).flatten ++ w = (List.replicate (n + 1) w).flatten := by
  induction n with
  | zero => simp
  | succ n ih =>
    rw [flatten_replicate_succ, List.append_assoc, ih,
      flatten_replicate_succ (n + 1)]

theorem reverse_flatten_replicate (n : Nat) (w : List Char) :
    ((List.replicate n w).flatten).reverse =
      (List.replicate n w.reverse).flatten := by
  induction n with
  | zero => rfl
  | succ n ih =>
    rw [flatten_replicate_succ, List.reverse_append, ih,
      flatten_replicate_snoc]

theorem isEmpty_false_of_ne_nil {α : Type} {l : List α} (h : l ≠ []) :
    l.isEmpty = false := by
  cases l with
  | nil => exact absurd rfl h
  | cons a as => rfl

theorem dropWhile_eq_self_of_head {p : Char → Bool} {l : List Char}
    (h : ∀ c, l.head? = some c → p c = false) : l.dropWhile p = l := by
  cases l with
  | nil => rfl
  | cons c cs =>
    rw [List.dropWhile_cons, if_neg]
    rw [h c rfl]
    exact Bool.false_ne_true

theorem pyStrip_eq_self {l : List Char}
    (h1 : ∀ c, l.head? = some c → pyIsSpace c = false)
    (h2 : ∀ c, l.getLast? = some c → pyIsSpace c = false) : pyStrip l = l := by
  unfold pyStrip
  rw [dropWhile_eq_self_of_head h1]
  rw [dropWhile_eq_self_of_head (by
    intro c hc
    rw [List.head?_reverse] at hc
    exact h2 c hc)]
  exact List.reverse_reverse l

theorem findBreak_none_of_no_newline :
    ∀ {l : List Char}, (∀ c ∈ l, c ≠ '\n') → findBreak l = none
  | [], _ => rfl
  | c :: cs, h => by
    rw [findBreak, if_neg (h c (List.mem_cons_self c cs)),
      findBreak_none_of_no_newline
        (fun d hd => h d (List.mem_cons_of_mem c hd))]
    rfl

theorem notPunct_cond {prev : Option Char}
    (hprev : ∀ d, prev = some d → d ≠ '.' ∧ d ≠ '!' ∧ d ≠ '?') (c : Char) :
    (pyIsSpace c &&
      (prev = some '.' || prev = some '!' || prev = some '?')) = false := by
  match prev with
  | none => simp
  | some d =>
    obtain ⟨h1, h2, h3⟩ := hprev d rfl
    simp only [Option.some.injEq]
    rw [Bool.and_eq_false_iff]
    right
    rw [Bool.or_eq_false_iff, Bool.or_eq_false_iff]
    refine ⟨⟨?_, ?_⟩, ?_⟩ <;> · rw [decide_eq_false] <;> simp_all

theorem findSentBreak_none_of_no_punct :
    ∀ {prev : Option Char} {l : List Char},
      (∀ c ∈ l, c ≠ '.' ∧ c ≠ '!' ∧ c ≠ '?') →
      (∀ d, prev = some d → d ≠ '.' ∧ d ≠ '!' ∧ d ≠ '?') →
      findSentBreak prev l = none
  | prev, [], _, _ => rfl
  | prev, c :: cs, hl, hprev => by
    rw [findSentBreak, if_neg]
    · rw [findSentBreak_none_of_no_punct
        (fun d hd => hl d (List.mem_cons_of_mem c hd))
        (fun d hd => by
          cases hd
          exact hl c (List.mem_cons_self c cs))]
      rfl
    · rw [notPunct_cond hprev c]
      exact Bool.false_ne_true

theorem c7words_len : c7words.length = 2500 := by
  unfold c7words
  rw [flatten_replicate_length]
  rfl

theorem c7ws_len : c7ws.length = 2499 := by
  unfold c7ws
  rw [List.length_append, flatten_replicate_length]
  rfl

theorem c7text_len : c7text.length = 2509 := by
  unfold c7text
  rw [List.length_append, c7words_len]
  rfl

theorem c7body_len : c7body.length = 2508 := by
  unfold c7body
  rw [List.length_append, c7ws_len]
  rfl

theorem c7words_no_newline : ∀ c ∈ c7words, c ≠ '\n' := by
  intro c hc
  have hw : c ∈ c7word := mem_flatten_replicate hc
  have hall : ∀ d ∈ c7word, d ≠ '\n' := by decide
  exact hall c hw

theorem c7words_ne_nil : c7words ≠ [] := by
  apply List.ne_nil_of_length_pos
  rw [c7words_len]
  norm_num

theorem c7ws_ne_nil : c7ws ≠ [] := by
  apply List.ne_nil_of_length_pos
  rw [c7ws_len]
  norm_num

theorem c7word_eq : c7word = 'w' :: 'o' :: 'r' :: 'd' :: ' ' :: [] := rfl

theorem c7words_cons :
    c7words = 'w' :: 'o' :: 'r' :: 'd' :: ' ' ::
      (List.replicate 499 c7word).flatten := by
  unfold c7words
  rw [show (500 : Nat) = 499 + 1 from rfl, flatten_replicate_succ, c7word_eq]
  simp only [List.cons_append, List.nil_append]

theorem c7rev_eq : c7word.reverse = ' ' :: 'd' :: 'r' :: 'o' :: 'w' :: [] := rfl

theorem c7words_rev :
    c7words.reverse =
      ' ' :: (('d' :: 'r' :: 'o' :: 'w' :: []) ++
        (List.replicate 499 (c7word.reverse)).flatten) := by
  unfold c7words
  rw [reverse_flatten_replicate,
    show (500 : Nat) = 499 + 1 from rfl, flatten_replicate_succ, c7rev_eq]
  simp only [List.cons_append, List.nil_append]

theorem c7strip_words : pyStrip c7words = c7ws := by
  have h1 : List.dropWhile pyIsSpace c7words = c7words :=
    dropWhile_eq_self_of_head (by
      intro c hc
      rw [c7words_cons] at hc
      cases hc
      decide)
  have hrev := c7words_rev
  have h2 : List.dropWhile pyIsSpace (c7words.reverse) =
      ('d' :: 'r' :: 'o' :: 'w' :: []) ++
        (List.replicate 499 (c7word.reverse)).flatten := by
    rw [hrev, List.dropWhile_cons, if_pos (by decide)]
    refine dropWhile_eq_self_of_head ?_
    intro c hc
    rw [show (('d' :: 'r' :: 'o' :: 'w' :: []) ++
      (List.replicate 499 (c7word.reverse)).flatten).head? = some 'd'
      from rfl] at hc
    cases hc
    decide
  unfold pyStrip
  rw [h1, h2, List.reverse_append, reverse_flatten_replicate,
    List.reverse_reverse]
  unfold c7ws
  rfl

theorem c7ws_head : c7ws.head? = some 'w' := by
  unfold c7ws
  rw [show (499 : Nat) = 498 + 1 from rfl, flatten_replicate_succ]
  rfl

theorem c7ws_last : c7ws.getLast? = some 'd' := by
  unfold c7ws
  rw [List.getLast?_append]
  rfl

theorem c7strip_ws : pyStrip c7ws = c7ws := by
  refine pyStrip_eq_self ?_ ?_
  · intro c hc
    rw [c7ws_head] at hc
    cases hc
    decide
  · intro c hc
    rw [c7ws_last] at hc
    cases hc
    decide

theorem c7_paras :
    split_into_paragraphs c7text = [("# Intro".toList, 0), (c7ws, 9)] := by
  have htake : c7text.take 7 = "# Intro".toList := by decide
  have hdrop : c7text.drop 9 = c7words := by
    unfold c7text
    rw [show (9 : Nat) = c7head.length from rfl, List.drop_left]
  have hfb : findBreak c7text = some (7, 9) := by decide
  have hfbw : findBreak c7words = none :=
    findBreak_none_of_no_newline c7words_no_newline
  unfold split_into_paragraphs
  rw [c7text_len, show (2509 : Nat) + 1 = 2508 + 1 + 1 from rfl, splitParasGo,
    hfb]
  dsimp only
  rw [htake, hdrop, Nat.zero_add]
  rw [show pyStrip ("# Intro".toList) = "# Intro".toList from by decide]
  rw [show (("# Intro".toList).isEmpty) = false from by decide]
  rw [splitParasGo, hfbw]
  dsimp only
  rw [isEmpty_false_of_ne_nil c7words_ne_nil, c7strip_words,
    isEmpty_false_of_ne_nil c7ws_ne_nil]
  rfl

theorem c7body_ne_nil : c7body ≠ [] := by
  apply List.ne_nil_of_length_pos
  rw [c7body_len]
  norm_num

theorem c7body_head : c7body.head? = some '#' := by
  unfold c7body c7head
  rfl

theorem c7body_last : c7body.getLast? = some 'd' := by
  unfold c7body
  rw [List.getLast?_append, c7ws_last]
  rfl

theorem c7strip_body : pyStrip c7body = c7body := by
  refine pyStrip_eq_self ?_ ?_
  · intro c hc
    rw [c7body_head] at hc
    cases hc
    decide
  · intro c hc
    rw [c7body_last] at hc
    cases hc
    decide

theorem c7body_nopunct : ∀ c ∈ c7body, c ≠ '.' ∧ c ≠ '!' ∧ c ≠ '?' := by
  intro c hc
  rcases List.mem_append.mp hc with h1 | h1
  · have hall : ∀ d ∈ c7head, d ≠ '.' ∧ d ≠ '!' ∧ d ≠ '?' := by decide
    exact hall c h1
  · rcases List.mem_append.mp h1 with h2 | h2
    · have hw : c ∈ c7word := mem_flatten_replicate h2
      have hall : ∀ d ∈ c7word, d ≠ '.' ∧ d ≠ '!' ∧ d ≠ '?' := by decide
      exact hall c hw
    · have hall : ∀ d ∈ "word".toList, d ≠ '.' ∧ d ≠ '!' ∧ d ≠ '?' := by decide
      exact hall c h2

theorem c7strip_text : pyStrip c7text = c7body := by
  have h1 : List.dropWhile pyIsSpace c7text = c7text :=
    dropWhile_eq_self_of_head (by
      intro c hc
      rw [show c7text.head? = some '#' from rfl] at hc
      cases hc
      decide)
  have hrev : c7text.reverse =
      ' ' :: ((('d' :: 'r' :: 'o' :: 'w' :: []) ++
        (List.replicate 499 (c7word.reverse)).flatten) ++ c7head.reverse) := by
    unfold c7text
    rw [List.reverse_append, c7words_rev]
    simp only [List.cons_append, List.append_assoc]
  have h2 : List.dropWhile pyIsSpace c7text.reverse =
      (('d' :: 'r' :: 'o' :: 'w' :: []) ++
        (List.replicate 499 (c7word.reverse)).flatten) ++ c7head.reverse := by
    rw [hrev, List.dropWhile_cons, if_pos (by decide)]
    refine dropWhile_eq_self_of_head ?_
    intro c hc
    rw [show ((('d' :: 'r' :: 'o' :: 'w' :: []) ++
        (List.replicate 499 (c7word.reverse)).flatten) ++
        c7head.reverse).head? = some 'd' from rfl] at hc
    cases hc
    decide
  unfold pyStrip
  rw [h1, h2, List.reverse_append, List.reverse_reverse, List.reverse_append,
    reverse_flatten_replicate, List.reverse_reverse]
  unfold c7body c7ws
  rfl

theorem c7_est_ws : estimate_tokens c7ws = 624 := by
  unfold estimate_tokens
  rw [c7ws_len]

theorem c7_est_body : estimate_tokens c7body = 627 := by
  unfold estimate_tokens
  rw [c7body_len]

theorem c7_sect0 : find_section_context c7text 0 = none := by decide

theorem c7_sect9 :
    find_section_context c7text 9 = some ("## Intro".toList) := by
  have hslice : pySliceTo c7text 9 = c7head := by
    unfold pySliceTo c7text
    rw [if_pos (by norm_num), show ((9 : Int).toNat) = c7head.length from rfl,
      List.take_left]
  unfold find_section_context
  rw [hslice]
  dsimp only
  rw [if_neg (by decide)]
  rw [show extract_page_number c7head = none from by decide]
  rw [show extract_markdown_section c7head = some ("Intro".toList)
    from by decide]
  rfl

theorem c7_fin0 :
    finalizeChunk c7text ⟨[], 0, "# Intro".toList, 0⟩ = c7chunk0 := by
  unfold finalizeChunk c7chunk0
  rw [c7_sect0]
  rfl

theorem c7_fin1 :
    finalizeChunk c7text ⟨[c7chunk0], 1, c7ws, 9⟩ = c7chunk1 := by
  unfold finalizeChunk c7chunk1
  dsimp only
  rw [c7_sect9, c7strip_ws, c7_est_ws, c7ws_len]
  rfl

theorem c7_step1 :
    chunkStep c7text 200 (tokens_to_chars 100) ⟨[], 0, [], 0⟩
      ("# Intro".toList, 0) = ⟨[], 0, "# Intro".toList, 0⟩ := by
  unfold chunkStep
  rw [if_neg (by decide)]
  rw [if_neg (by decide)]
  rfl

theorem c7_step2 :
    chunkStep c7text 200 (tokens_to_chars 100) ⟨[], 0, "# Intro".toList, 0⟩
      (c7ws, 9) = ⟨[c7chunk0], 1, c7ws, 9⟩ := by
  unfold chunkStep
  rw [if_pos ?hcond]
  case hcond =>
    refine ⟨by decide, ?_⟩
    dsimp only
    rw [show estimate_tokens ("# Intro".toList) = 1 from by decide, c7_est_ws]
    norm_num
  rw [if_neg (by decide)]
  dsimp only
  rw [c7_fin0, List.nil_append]
  rfl

theorem c7_fold :
    List.foldl (chunkStep c7text 200 (tokens_to_chars 100)) ⟨[], 0, [], 0⟩
      [("# Intro".toList, 0), (c7ws, 9)] = ⟨[c7chunk0], 1, c7ws, 9⟩ := by
  rw [List.foldl_cons, c7_step1, List.foldl_cons, c7_step2, List.foldl_nil]

theorem c7_merge :
    mergeSmallChunks [c7chunk0, c7chunk1] 300 = [c7merged] := by
  unfold mergeSmallChunks
  rw [if_neg (by decide)]
  dsimp only
  rw [mergeRun.eq_def]
  dsimp only
  rw [if_pos (by decide), mergeRun.eq_def]
  dsimp only
  unfold c7chunk0 c7chunk1 c7merged
  dsimp only
  rw [show ("# Intro".toList ++ nn ++ c7ws) = c7body from by
    unfold c7body
    rw [show ("# Intro".toList ++ nn) = c7head from by decide]]

theorem c7_sents : split_into_sentences c7body = [(c7body, 0)] := by
  have hfsb : findSentBreak none c7body = none :=
    findSentBreak_none_of_no_punct c7body_nopunct
      (fun d hd => Option.noConfusion hd)
  unfold split_into_sentences
  rw [splitSentsGo, hfsb]
  dsimp only
  rw [isEmpty_false_of_ne_nil c7body_ne_nil, c7strip_body,
    isEmpty_false_of_ne_nil c7body_ne_nil]
  rfl

theorem c7_sub : subChunk c7merged c7body 0 = c7final := by
  unfold subChunk c7merged c7final
  dsimp only
  rw [c7strip_body, c7_est_body, c7body_len]
  rfl

theorem c7_splitOne : splitLargeOne 200 c7merged = [c7final] := by
  unfold splitLargeOne
  rw [if_neg (by decide)]
  dsimp only
  rw [show c7merged.content = c7body from rfl, c7_sents, List.foldl_cons]
  rw [show splitSentStep c7merged 200 ([], [], c7merged.start_char)
      (c7body, 0) = ([], c7body, c7merged.start_char) from by
    unfold splitSentStep
    rw [if_neg (by decide), if_neg (by decide)]]
  rw [List.foldl_nil]
  dsimp only
  rw [c7strip_body, isEmpty_false_of_ne_nil c7body_ne_nil]
  rw [if_neg Bool.false_ne_true]
  rw [show c7merged.start_char = 0 from rfl, c7_sub, List.nil_append]

theorem c7_split : splitLargeChunks [c7merged] 200 = [c7final] := by
  unfold splitLargeChunks
  rw [List.map_cons, List.map_nil, List.flatten_cons, List.flatten_nil,
    List.append_nil, c7_splitOne]

theorem c7_reindex : reindexChunks [c7final] = [c7final] := by
  unfold reindexChunks
  rfl

/-- The full C7 scenario result: `chunk_text("# Intro\n\n" + "word " * 500,
"md", max_tokens=200)` (defaults `min_tokens=300`, `overlap_tokens=100`)
produces exactly one chunk, carrying the whole stripped text and no
section label. -/

theorem c7_chunk_text :
    chunk_text c7text ("md".toList) 300 200 100 = [c7final] := by
  unfold chunk_text
  rw [if_neg (show ¬((pyStrip c7text).isEmpty = true) from by
    rw [c7strip_text, isEmpty_false_of_ne_nil c7body_ne_nil]
    exact Bool.false_ne_true)]
  dsimp only
  rw [c7_paras]
  rw [show (([("# Intro".toList, 0), (c7ws, 9)] :
    List (List Char × Nat))).isEmpty = false from rfl]
  rw [if_neg Bool.false_ne_true]
  rw [c7_fold]
  dsimp only
  rw [c7strip_ws, isEmpty_false_of_ne_nil c7ws_ne_nil]
  rw [if_neg Bool.false_ne_true]
  rw [c7_fin1]
  rw [show ([c7chunk0] ++ [c7chunk1]) = [c7chunk0, c7chunk1] from rfl]
  rw [c7_merge, c7_split, c7_reindex]

/-- Claim C7 (counterexample).  Chunking `"# Intro\n\n" + "word " * 500`
with `max_tokens = 200` (and the source defaults `min_tokens = 300`,
`overlap_tokens = 100`) does NOT yield more than one chunk: the 1-token
heading chunk is below the 300-token floor, the merge repair folds it into
the word block, and the sentence re-split cannot cut the merged chunk
because the text has no sentence punctuation — exactly one chunk remains,
refuting the claim at its own concrete input. -/

theorem c7_not_multiple_chunks :
    ¬ 1 < (chunk_text c7text ("md".toList) 300 200 100).length := by
  rw [c7_chunk_text]
  decide

/-- Claim C7 (amended).  The scenario yields exactly one chunk, and that
chunk carries NO section label (merging keeps the first chunk's label,
which is `None` because no heading precedes position 0; the stored label
for a labelled chunk would in any case be `"## Intro"`, not `"Intro"`). -/

theorem c7_single_unlabelled_chunk :
    (chunk_text c7text ("md".toList) 300 200 100).length = 1 ∧
      (chunk_text c7text ("md".toList) 300 200 100).map
        (fun c => c.page_or_section) = [none] := by
  rw [c7_chunk_text]
  exact ⟨rfl, rfl⟩

/-- Claim C2.  Every result's `weighted_score` is its similarity times
`1 / trust_level` of its owning document; the returned list is sorted in
descending order of `weighted_score`; and its length is at most the
requested `n_results`. -/

theorem search_ranking (env : SearchEnv) (query : List Char) (n_results : Nat)
    (trust_level : Option Nat) (source_ids : Option (List Nat)) :
    (∀ r ∈ search env query n_results trust_level source_ids,
        weighted_score r = r.similarity_score * (1 / (r.source.trust_level : ℚ))) ∧
      (search env query n_results trust_level source_ids).Pairwise
        (fun a b => weighted_score b ≤ weighted_score a) ∧
      (search env query n_results trust_level source_ids).length ≤ n_results := by
  refine ⟨?_, ?_, ?_⟩
  · intro r _
    rfl
  · unfold search
    refine List.Pairwise.sublist (List.take_sublist _ _) ?_
    refine List.Pairwise.imp (fun h => of_decide_eq_true h) ?_
    refine List.sorted_mergeSort ?_ ?_ _
    · intro a b c hab hbc
      have h1 : weighted_score b ≤ weighted_score a := of_decide_eq_true hab
      have h2 : weighted_score c ≤ weighted_score b := of_decide_eq_true hbc
      exact decide_eq_true (le_trans h2 h1)
    · intro a b
      rcases le_total (weighted_score b) (weighted_score a) with h | h
      · rw [decide_eq_true h, Bool.true_or]
      · rw [decide_eq_true h, Bool.or_true]
  · unfold search
    exact List.length_take_le _ _

theorem search_ranking_witness :
    (∀ r ∈ search c2env ("focus".toList) 5 none none,
        weighted_score r = r.similarity_score * (1 / (r.source.trust_level : ℚ))) ∧
      (search c2env ("focus".toList) 5 none none).Pairwise
        (fun a b => weighted_score b ≤ weighted_score a) ∧
      (search c2env ("focus".toList) 5 none none).length ≤ 5 :=
  search_ranking c2env ("focus".toList) 5 none none

theorem resolveHit_none_of_missing (env : SearchEnv) (trust_level : Option Nat)
    (hit : List Char × ℚ)
    (hmiss : env.get_chunk_by_id hit.1 = none ∨
      ∀ ch, env.get_chunk_by_id hit.1 = some ch →
        env.get_source_by_id ch.source_id = none) :
    resolveHit env trust_level hit = none := by
  unfold resolveHit
  rcases hmiss with h | h
  · rw [h]
  · match hch : env.get_chunk_by_id hit.1 with
    | none => rfl
    | some chunk =>
      dsimp only
      rw [h chunk hch]

theorem resolveHit_trust {env : SearchEnv} {tl : Nat} {hit : List Char × ℚ}
    {r : SearchResultR} (h : resolveHit env (some tl) hit = some r) :
    r.source.trust_level ≤ tl := by
  unfold resolveHit at h
  match hch : env.get_chunk_by_id hit.1 with
  | none =>
    rw [hch] at h
    simp at h
  | some chunk =>
    rw [hch] at h
    dsimp only at h
    match hsrc : env.get_source_by_id chunk.source_id with
    | none =>
      rw [hsrc] at h
      simp at h
    | some source =>
      rw [hsrc] at h
      dsimp only at h
      by_cases htl : tl < source.trust_level
      · rw [if_pos htl] at h
        simp at h
      · rw [if_neg htl] at h
        cases h
        exact Nat.le_of_not_lt htl

/-- Claim C6.  (i) A vector-index hit whose chunk row or owning source row
is missing from the relational store is silently skipped: a search fed the
same raw hits with such a stale hit removed returns exactly the same
results (and `search` is a total function — it never fails).  (ii) When a
`trust_level` filter is supplied, every returned result's source has
`trust_level` at most the filter value. -/

theorem search_stale_and_trust (env env2 : SearchEnv) (query : List Char)
    (n_results : Nat) (trust_level : Option Nat)
    (source_ids : Option (List Nat)) (pre post : List (List Char × ℚ))
    (cid : List Char) (sim : ℚ) (tl : Nat)
    (hraw : env.rawSearch query (n_results * 2) source_ids =
      pre ++ (cid, sim) :: post)
    (hraw2 : env2.rawSearch query (n_results * 2) source_ids = pre ++ post)
    (hch : env2.get_chunk_by_id = env.get_chunk_by_id)
    (hsrc : env2.get_source_by_id = env.get_source_by_id)
    (hmiss : env.get_chunk_by_id cid = none ∨
      ∀ ch, env.get_chunk_by_id cid = some ch →
        env.get_source_by_id ch.source_id = none) :
    search env query n_results trust_level source_ids =
        search env2 query n_results trust_level source_ids ∧
      ∀ r ∈ search env query n_results (some tl) source_ids,
        r.source.trust_level ≤ tl := by
  constructor
  · unfold search
    rw [hraw, hraw2]
    have henv2 : resolveHit env2 trust_level = resolveHit env trust_level := by
      funext hit
      unfold resolveHit
      rw [hch, hsrc]
    rw [henv2]
    dsimp only
    rw [List.filterMap_append, List.filterMap_append, List.filterMap_cons,
      resolveHit_none_of_missing env trust_level (cid, sim) hmiss]
  · intro r hr
    unfold search at hr
    have hr2 := (List.mergeSort_perm _ _).mem_iff.mp (List.mem_of_mem_take hr)
    obtain ⟨hit, _, hres⟩ := List.mem_filterMap.mp hr2
    exact resolveHit_trust hres

/-- Claim C6 (witness): concretely, a search whose raw hits contain a
stale chunk id returns the same results as one without it, and with
`trust_level = 2` every returned source is at least that trusted. -/

theorem search_stale_and_trust_witness :
    (search c6envStale ("focus".toList) 5 none none =
        search c6envGood ("focus".toList) 5 none none) ∧
      ∀ r ∈ search c6envStale ("focus".toList) 5 (some 2) none,
        r.source.trust_level ≤ 2 := by
  refine (search_stale_and_trust c6envStale c6envGood ("focus".toList) 5
    none none [] [("chA".toList, (4 : ℚ) / 5)] ("gone".toList) ((9 : ℚ) / 10)
    2 ?_ ?_ ?_ ?_ ?_)
  · rfl
  · rfl
  · rfl
  · rfl
  · left
    rfl

theorem linesOf_ne_nil (l : List Char) : linesOf l ≠ [] := by
  cases l with
  | nil => exact List.cons_ne_nil _ _
  | cons c rest =>
    rw [linesOf]
    split
    · exact List.cons_ne_nil _ _
    · exact List.cons_ne_nil _ _

theorem linesOf_newline (xs ys : List Char) :
    linesOf (xs ++ '\n' :: ys) = linesOf xs ++ linesOf ys := by
  induction xs with
  | nil =>
    rw [List.nil_append]
    conv_lhs => rw [linesOf]
    rw [if_pos rfl]
    rfl
  | cons c xs ih =>
    rw [List.cons_append, linesOf, linesOf]
    by_cases hc : c = '\n'
    · rw [if_pos hc, if_pos hc, ih, List.cons_append]
    · rw [if_neg hc, if_neg hc, ih]
      match hl : linesOf xs with
      | [] => exact absurd hl (linesOf_ne_nil xs)
      | x :: rest => rfl

theorem linesOf_nonl (a b : List Char) (ha : ∀ c ∈ a, c ≠ '\n') :
    linesOf (a ++ b) =
      (a ++ (linesOf b).headD []) :: (linesOf b).tail := by
  induction a with
  | nil =>
    rw [List.nil_append, List.nil_append]
    match hl : linesOf b with
    | [] => exact absurd hl (linesOf_ne_nil b)
    | x :: rest => rfl
  | cons c a ih =>
    rw [List.cons_append, linesOf,
      if_neg (ha c (List.mem_cons_self c a)),
      ih (fun d hd => ha d (List.mem_cons_of_mem c hd))]
    rfl

theorem pyContains_iff {needle hay : List Char} :
    pyContains needle hay = true ↔ needle <:+: hay := by
  unfold pyContains
  rw [List.any_eq_true]
  constructor
  · rintro ⟨t, ht, hp⟩
    exact List.infix_iff_prefix_suffix.mpr
      ⟨t, List.isPrefixOf_iff_prefix.mp hp, (List.mem_tails _ _).mp ht⟩
  · intro h
    obtain ⟨t, hp, hs⟩ := List.infix_iff_prefix_suffix.mp h
    exact ⟨t, (List.mem_tails _ _).mpr hs, List.isPrefixOf_iff_prefix.mpr hp⟩

theorem natReprGo_chars {P : Char → Prop}
    (hd : ∀ n : Nat, P (Char.ofNat (48 + n % 10))) :
    ∀ (fuel n : Nat) (acc : List Char), (∀ c ∈ acc, P c) →
      ∀ c ∈ natReprGo fuel n acc, P c
  | 0, n, acc, hacc => hacc
  | fuel + 1, n, acc, hacc => by
    rw [natReprGo]
    split
    · intro c hc
      rcases List.mem_cons.mp hc with h | h
      · subst h
        exact hd n
      · exact hacc c h
    · refine natReprGo_chars hd fuel (n / 10) _ ?_
      intro c hc
      rcases List.mem_cons.mp hc with h | h
      · subst h
        exact hd n
      · exact hacc c h

theorem digit_char_ne_newline (n : Nat) :
    Char.ofNat (48 + n % 10) ≠ '\n' := by
  have h : n % 10 < 10 := Nat.mod_lt n (by norm_num)
  interval_cases hk : n % 10 <;> decide

theorem natRepr_no_newline (n : Nat) : ∀ c ∈ natRepr n, c ≠ '\n' := by
  refine natReprGo_chars (fun m => digit_char_ne_newline m) (n + 1) n []
    (fun c hc => absurd hc (List.not_mem_nil c))

theorem ctxHeader_no_newline (i : Nat) : ∀ c ∈ ctxHeader i, c ≠ '\n' := by
  intro c hc
  unfold ctxHeader at hc
  rcases List.mem_cons.mp hc with h | h
  · subst h
    decide
  · rcases List.mem_append.mp h with h2 | h2
    · exact natRepr_no_newline i c h2
    · have hall : ∀ d ∈ srcMark, d ≠ '\n' := by decide
      exact hall c h2

theorem markerLine_first (i : Nat) (tail : List Char) :
    markerLine (ctxHeader i ++ tail) = true := by
  unfold markerLine ctxHeader
  rw [Bool.and_eq_true]
  constructor
  · rw [List.cons_append]
    exact decide_eq_true rfl
  · refine pyContains_iff.mpr ?_
    refine ⟨'[' :: natRepr i, tail, ?_⟩
    simp [List.cons_append, List.append_assoc]

theorem part_marker_count (i : Nat) (r : SearchResultR)
    (hcit : ∀ l ∈ (linesOf r.citation_ref).tail, markerLine l = false)
    (hcont : ∀ l ∈ linesOf r.chunk.content, markerLine l = false) :
    ((linesOf (ctxPart i r)).filter markerLine).length = 1 := by
  unfold ctxPart
  rw [linesOf_newline, linesOf_newline,
    linesOf_nonl (ctxHeader i) r.citation_ref (ctxHeader_no_newline i)]
  rw [List.filter_append, List.filter_append, List.filter_cons,
    markerLine_first]
  rw [List.filter_eq_nil.mpr (fun l hl => by rw [hcit l hl]; exact
    Bool.false_ne_true)]
  rw [List.filter_eq_nil.mpr (fun l hl => by rw [hcont l hl]; exact
    Bool.false_ne_true)]
  rfl

theorem intercalate_sep_nil : List.intercalate ctxSep [] = [] := by
  unfold List.intercalate
  rfl

theorem intercalate_sep_single (p : List Char) :
    List.intercalate ctxSep [p] = p := by
  unfold List.intercalate
  simp

theorem intercalate_sep_cons (p q : List Char) (ps : List (List Char)) :
    List.intercalate ctxSep (p :: q :: ps) =
      p ++ ctxSep ++ List.intercalate ctxSep (q :: ps) := by
  unfold List.intercalate
  simp [List.intersperse]

theorem countMarkers_intercalate :
    ∀ parts : List (List Char),
      (∀ p ∈ parts, ((linesOf p).filter markerLine).length = 1) →
      countMarkers (List.intercalate ctxSep parts) = parts.length
  | [], _ => by
    rw [intercalate_sep_nil]
    rfl
  | [p], hone => by
    rw [intercalate_sep_single]
    exact hone p (List.mem_cons_self p [])
  | p :: q :: ps, hone => by
    rw [intercalate_sep_cons, List.append_assoc]
    rw [show ctxSep ++ List.intercalate ctxSep (q :: ps) =
      '\n' :: (('-' :: '-' :: '-' :: []) ++
        '\n' :: List.intercalate ctxSep (q :: ps)) from rfl]
    unfold countMarkers
    rw [linesOf_newline, linesOf_newline]
    rw [List.filter_append, List.filter_append, List.length_append,
      List.length_append]
    have h1 : ((linesOf p).filter markerLine).length = 1 :=
      hone p (List.mem_cons_self p _)
    have h2 : ((linesOf ('-' :: '-' :: '-' :: [])).filter markerLine).length
        = 0 := by decide
    have h3 := countMarkers_intercalate (q :: ps)
      (fun x hx => hone x (List.mem_cons_of_mem p hx))
    unfold countMarkers at h3
    rw [h1, h2, h3]
    simp only [List.length_cons]
    omega

theorem ctxLoop_length_le (max_tokens : Int) :
    ∀ (rs : List SearchResultR) (i : Nat) (total : Int),
      (ctxLoop max_tokens i total rs).length ≤ rs.length
  | [], _, _ => Nat.le_refl 0
  | r :: rs, i, total => by
    rw [ctxLoop]
    split
    · exact Nat.zero_le _
    · rw [List.length_cons, List.length_cons]
      exact Nat.succ_le_succ (ctxLoop_length_le max_tokens rs (i + 1) _)

theorem ctxLoop_sum (max_tokens : Int) :
    ∀ (rs : List SearchResultR) (i : Nat) (total : Int), total ≤ max_tokens →
      total + ((rs.take (ctxLoop max_tokens i total rs).length).map
        (fun r => (chunkTokens r : Int))).sum ≤ max_tokens
  | [], _, _, h => by simpa using h
  | r :: rs, i, total, h => by
    rw [ctxLoop]
    split
    · simpa using h
    · next hok =>
      rw [List.length_cons, List.take_succ_cons, List.map_cons, List.sum_cons]
      have hrec := ctxLoop_sum max_tokens rs (i + 1) (total + chunkTokens r)
        (by omega)
      omega

theorem ctxLoop_stop (max_tokens : Int) :
    ∀ (rs : List SearchResultR) (i : Nat) (total : Int)
      (next : SearchResultR) (rest : List SearchResultR),
      rs.drop (ctxLoop max_tokens i total rs).length = next :: rest →
      max_tokens < total +
        ((rs.take (ctxLoop max_tokens i total rs).length).map
          (fun r => (chunkTokens r : Int))).sum + (chunkTokens next : Int)
  | [], i, total, next, rest, h => by simp at h
  | r :: rs, i, total, next, rest, h => by
    rw [ctxLoop] at h ⊢
    by_cases hover : total + (chunkTokens r : Int) > max_tokens
    · rw [if_pos hover] at h ⊢
      rw [List.length_nil, List.drop_zero] at h
      rw [List.length_nil, List.take_zero, List.map_nil, List.sum_nil]
      cases h
      omega
    · rw [if_neg hover] at h ⊢
      rw [List.length_cons, List.drop_succ_cons] at h
      rw [List.length_cons, List.take_succ_cons, List.map_cons, List.sum_cons]
      have hrec := ctxLoop_stop max_tokens rs (i + 1)
        (total + chunkTokens r) next rest h
      omega

theorem ctxLoop_mem (max_tokens : Int) :
    ∀ (rs : List SearchResultR) (i : Nat) (total : Int)
      (p : List Char), p ∈ ctxLoop max_tokens i total rs →
      ∃ j r, r ∈ rs ∧ p = ctxPart j r
  | [], i, total, p, hp => absurd hp (List.not_mem_nil p)
  | r :: rs, i, total, p, hp => by
    rw [ctxLoop] at hp
    split at hp
    · exact absurd hp (List.not_mem_nil p)
    · rcases List.mem_cons.mp hp with h | h
      · exact ⟨i, r, List.mem_cons_self r rs, h⟩
      · obtain ⟨j, x, hx, hpx⟩ := ctxLoop_mem max_tokens rs (i + 1) _ p h
        exact ⟨j, x, List.mem_cons_of_mem r hx, hpx⟩

/-- Claim C3 (amended).  For every environment and budget: (i) the SUM of
the included results' token estimates (`token_count or len/4`) stays
within `max_tokens` (for a non-negative budget) — the budget governs this
internal accounting, not the length of the formatted context text, whose
citation headers and separators are not counted; (ii) the returned
`usedResults` are a prefix of the ranked results; (iii) the first result
that would push the running total over the budget ends the iteration: if
any ranked results remain beyond `usedResults`, the first of them
overflows the budget; (iv) the number of citation-marker lines in the
returned context equals the length of `usedResults`, provided no result's
citation reference or chunk content itself contains a marker-shaped
line. -/

theorem get_context_for_query_spec (env : SearchEnv) (query : List Char)
    (n_chunks : Nat) (max_tokens : Int) (trust_level : Option Nat)
    (hmax : 0 ≤ max_tokens)
    (hlines : ∀ r ∈ search env query n_chunks trust_level none,
      (∀ l ∈ (linesOf r.citation_ref).tail, markerLine l = false) ∧
      (∀ l ∈ linesOf r.chunk.content, markerLine l = false)) :
    ((get_context_for_query env query n_chunks max_tokens trust_level).2.map
        (fun r => (chunkTokens r : Int))).sum ≤ max_tokens ∧
      ((get_context_for_query env query n_chunks max_tokens trust_level).2 <+:
        search env query n_chunks trust_level none) ∧
      (∀ next rest,
        (search env query n_chunks trust_level none).drop
          (get_context_for_query env query n_chunks max_tokens
            trust_level).2.length = next :: rest →
        max_tokens <
          ((get_context_for_query env query n_chunks max_tokens
            trust_level).2.map (fun r => (chunkTokens r : Int))).sum +
            (chunkTokens next : Int)) ∧
      countMarkers
          (get_context_for_query env query n_chunks max_tokens trust_level).1 =
        (get_context_for_query env query n_chunks max_tokens
          trust_level).2.length := by
  unfold get_context_for_query
  by_cases hemp : (search env query n_chunks trust_level none).isEmpty
  · rw [if_pos hemp]
    refine ⟨by simpa using hmax, List.nil_prefix, ?_, rfl⟩
    intro next rest h
    rw [List.isEmpty_iff.mp hemp] at h
    simp at h
  · rw [if_neg hemp]
    dsimp only
    have hlenle := ctxLoop_length_le max_tokens
      (search env query n_chunks trust_level none) 1 0
    have hlen : ((search env query n_chunks trust_level none).take
        (ctxLoop max_tokens 1 0
          (search env query n_chunks trust_level none)).length).length =
        (ctxLoop max_tokens 1 0
          (search env query n_chunks trust_level none)).length := by
      rw [List.length_take]
      exact Nat.min_eq_left hlenle
    refine ⟨?_, List.take_prefix _ _, ?_, ?_⟩
    · have h := ctxLoop_sum max_tokens
        (search env query n_chunks trust_level none) 1 0 hmax
      omega
    · intro next rest h
      rw [hlen] at h
      have hs := ctxLoop_stop max_tokens
        (search env query n_chunks trust_level none) 1 0 next rest h
      omega
    · rw [hlen]
      refine countMarkers_intercalate _ ?_
      intro p hp
      obtain ⟨j, r, hr, hpr⟩ := ctxLoop_mem max_tokens _ 1 0 p hp
      subst hpr
      exact part_marker_count j r (hlines r hr).1 (hlines r hr).2

theorem c3search (n_chunks : Nat) (hn : 1 ≤ n_chunks) :
    search c3env ("focus".toList) n_chunks none none = [c3result] := by
  unfold search
  rw [show c3env.rawSearch ("focus".toList) (n_chunks * 2) none =
    [("c3a".toList, (1 : ℚ))] from rfl]
  dsimp only
  rw [show List.filterMap (resolveHit c3env none)
      [("c3a".toList, (1 : ℚ))] = [c3result] from by decide]
  rw [List.mergeSort_singleton]
  match n_chunks, hn with
  | n + 1, _ => rw [List.take_succ_cons, List.take_nil]

theorem c3context :
    get_context_for_query c3env ("focus".toList) 5 11 none =
      (List.intercalate ctxSep [ctxPart 1 c3result], [c3result]) := by
  unfold get_context_for_query
  rw [c3search 5 (by norm_num)]
  rw [if_neg (by decide)]
  rw [show ctxLoop 11 1 0 [c3result] = [ctxPart 1 c3result] from by decide]
  rfl

/-- Claim C3 (counterexample).  With a budget of 11 tokens, the assembler
includes the 11-token chunk (11 ≤ 11), yet the returned context text —
citation header, reference line and trailing newlines included — has an
estimated token count of 16 > 11.  So "the context's estimated token
count never exceeds maxTokens", read with the module's own
`estimate_tokens`, is false: only the sum of the chunks' own token counts
is budgeted. -/

theorem get_context_exceeds_budget :
    11 < estimate_tokens
      (get_context_for_query c3env ("focus".toList) 5 11 none).1 := by
  rw [c3context]
  decide

/-- Claim C3 (witness): the amended theorem applied at the concrete
environment with budget 100. -/

theorem get_context_for_query_spec_witness :
    ((get_context_for_query c3env ("focus".toList) 5 100 none).2.map
        (fun r => (chunkTokens r : Int))).sum ≤ 100 ∧
      ((get_context_for_query c3env ("focus".toList) 5 100 none).2 <+:
        search c3env ("focus".toList) 5 none none) ∧
      (∀ next rest,
        (search c3env ("focus".toList) 5 none none).drop
          (get_context_for_query c3env ("focus".toList) 5 100
            none).2.length = next :: rest →
        (100 : Int) <
          ((get_context_for_query c3env ("focus".toList) 5 100
            none).2.map (fun r => (chunkTokens r : Int))).sum +
            (chunkTokens next : Int)) ∧
      countMarkers
          (get_context_for_query c3env ("focus".toList) 5 100 none).1 =
        (get_context_for_query c3env ("focus".toList) 5 100
          none).2.length :=
  get_context_for_query_spec c3env ("focus".toList) 5 100 none
    (by norm_num) (by
      rw [c3search 5 (by norm_num)]
      decide)

/-- Claim C5.  `verify_source` on a missing file sets status `failed`
with an error message containing "not found" and returns false; on a
changed hash it sets status `changed` and returns false; on an unchanged
hash it leaves the status untouched, updates `last_verified`, and
returns true. -/

theorem verify_source_spec (env : VerifyEnv) (s : SourceRow) :
    (env.fileHash s.file_path = none →
      (verify_source env s).1.status = "failed".toList ∧
      (∃ m, (verify_source env s).1.error_message = some m ∧
        pyContains ("not found".toList) m = true) ∧
      (verify_source env s).2 = false) ∧
    (∀ h, env.fileHash s.file_path = some h → h ≠ s.file_hash →
      (verify_source env s).1.status = "changed".toList ∧
      (verify_source env s).2 = false) ∧
    (∀ h, env.fileHash s.file_path = some h → h = s.file_hash →
      (verify_source env s).1.status = s.status ∧
      (verify_source env s).1.last_verified = some env.now ∧
      (verify_source env s).2 = true) := by
  refine ⟨?_, ?_, ?_⟩
  · intro hmiss
    unfold verify_source
    rw [hmiss]
    exact ⟨rfl, ⟨"File not found".toList, rfl, by decide⟩, rfl⟩
  · intro h hsome hne
    unfold verify_source
    rw [hsome]
    dsimp only
    rw [if_pos hne]
    exact ⟨rfl, rfl⟩
  · intro h hsome heq
    unfold verify_source
    rw [hsome]
    dsimp only
    rw [if_neg (by simpa using heq)]
    exact ⟨rfl, rfl, rfl⟩

/-- Claim C5 (witness): the unchanged-hash branch of the theorem at a
concrete row. -/

theorem verify_source_spec_witness :
    (verify_source c5envSame c5src).1.status = "indexed".toList ∧
    (verify_source c5envSame c5src).1.last_verified = some 42 ∧
    (verify_source c5envSame c5src).2 = true :=
  (verify_source_spec c5envSame c5src).2.2 ("abc".toList) (by decide) (by decide)

/-- The anchored pattern fails whenever the text does not begin with `#`. -/

theorem matchH1At_ne_hash (c : Char) (r : List Char) (hc : c ≠ '#') :
    matchH1At (c :: r) = none := by
  unfold matchH1At
  split
  · next h => exact absurd (List.cons.injEq _ _ _ _ ▸ h).1 hc
  · rfl

/-- Claim C8 (counterexample).  For the markdown content
`"intro\n# Real Title"` with filename stem `"a"`, the content's first
level-1 heading anywhere is `Real Title`, but `create_source` titles the
document `a`: `re.match` anchors the pattern at the start of the stripped
content, so an H1 on any later line is never found. -/

theorem create_source_md_title_misses_later_h1 :
    spec_title_md ("intro\n# Real Title".toList) ("a".toList) =
      "Real Title".toList ∧
    (create_source_md ("intro\n# Real Title".toList) ("a".toList)).title =
      "a".toList := by
  decide

/-- Claim C8 (amended).  `create_source` on a markdown file without an
explicit title always creates the document with status `pending`; it
titles it with the extracted heading when the STRIPPED CONTENT BEGINS
with a level-1 heading (and the extracted text is non-empty), and falls
back to the filename stem when extraction fails — in particular whenever
the stripped content starts with any character other than `#`, no matter
what headings occur later. -/

theorem create_source_md_spec (content stem : List Char) :
    (create_source_md content stem).status = "pending".toList ∧
    (∀ t, extract_title_from_markdown content = some t → t ≠ [] →
      (create_source_md content stem).title = t) ∧
    (extract_title_from_markdown content = none →
      (create_source_md content stem).title = stem) ∧
    (∀ c rest, pyStrip content = c :: rest → c ≠ '#' →
      (create_source_md content stem).title = stem) := by
  refine ⟨rfl, ?_, ?_, ?_⟩
  · intro t ht htne
    unfold create_source_md
    rw [ht]
    dsimp only
    rw [if_neg (by simpa using htne)]
  · intro hn
    unfold create_source_md
    rw [hn]
  · intro c rest hps hc
    have hn : extract_title_from_markdown content = none := by
      unfold extract_title_from_markdown
      rw [hps, matchH1At_ne_hash c rest hc]
      rfl
    unfold create_source_md
    rw [hn]

/-- Claim C8 (witness): the amended theorem at the concrete markdown
content `"# Top\nbody"` with stem `"s"`: the title is the leading H1. -/

theorem create_source_md_spec_witness :
    (create_source_md ("# Top\nbody".toList) ("s".toList)).title =
      "Top".toList :=
  (create_source_md_spec ("# Top\nbody".toList) ("s".toList)).2.1
    ("Top".toList) (by decide) (by decide)

/-- Claim C9 (counterexample).  The answer `"I don't have enough
information."` is non-empty and does NOT contain the canonical escape
phrase (case-insensitively), so under the claim `has_answer` should be
true; yet `has_answer` is false, because the code only tests the fragment
`"don't have enough information"`, which this answer does contain. -/

theorem has_answer_fragment_not_phrase :
    ("I don't have enough information.".toList ≠ ([] : List Char)) ∧
    pyContains canonical_escape_phrase
      (pyLower ("I don't have enough information.".toList)) = false ∧
    has_answer ("I don't have enough information.".toList) = false := by
  refine ⟨by decide, by decide, by decide⟩

/-- Claim C9 (amended).  `has_answer answer` is true exactly when the
answer text is non-empty and does not contain the FRAGMENT
`"don't have enough information"` of the canonical escape phrase as a
case-insensitive substring (the code tests this fragment, not the full
phrase). -/

theorem has_answer_spec (answer : List Char) :
    has_answer answer = true ↔
      answer ≠ [] ∧ ¬ escape_fragment <:+: pyLower answer := by
  unfold has_answer
  rw [Bool.and_eq_true, Bool.not_eq_true', Bool.not_eq_true',
    List.isEmpty_eq_false_iff_exists_mem]
  constructor
  · rintro ⟨⟨x, hx⟩, hc⟩
    refine ⟨fun h => by simp [h] at hx, fun hinf => ?_⟩
    rw [pyContains_iff.mpr hinf] at hc
    exact Bool.true_eq_false.mp hc
  · rintro ⟨hne, hinf⟩
    obtain ⟨x, hx⟩ := List.exists_mem_of_ne_nil answer hne
    refine ⟨⟨x, hx⟩, ?_⟩
    cases hc : pyContains escape_fragment (pyLower answer)
    · rfl
    · exact absurd (pyContains_iff.mp hc) hinf

/-- Counting in a filtered list when the element satisfies the filter. -/

theorem count_filter_of_pos (l : List (List (List Char)))
    (p : List (List Char) → Bool) (a : List (List Char)) (h : p a = true) :
    (l.filter p).count a = l.count a :=
  List.count_filter h

/-- Counting in a filtered list when the element fails the filter. -/

theorem count_filter_of_neg (l : List (List (List Char)))
    (p : List (List Char) → Bool) (a : List (List Char)) (h : p a = false) :
    (l.filter p).count a = 0 := by
  refine List.count_eq_zero.mpr (fun hmem => ?_)
  have h2 := (List.mem_filter.mp hmem).2
  rw [h] at h2
  cases h2

/-- Two suffixes of the same list are comparable, so a second,
incomparable extension cannot also be a suffix of `name`. -/

theorem not_suffix_of_incomparable {s1 s2 name : List Char}
    (h1 : s1 <:+ name) (h12 : ¬ s1 <:+ s2) (h21 : ¬ s2 <:+ s1) :
    ¬ s2 <:+ name := fun h2 =>
  (List.suffix_or_suffix_of_suffix h2 h1).elim h21 h12

/-- Claim C10.  A supported file directly in the scanned directory whose
resolved path is not tracked appears exactly TWICE in the list returned
by `discover_new_sources`: both the non-recursive glob `*{ext}` and the
recursive glob `**/*{ext}` match it, and nothing deduplicates the
combined list. -/

theorem discover_new_sources_top_level_twice
    (files : List (List (List Char)))
    (tracked : List Char → Bool) (resolve : List (List Char) → List Char)
    (ext name : List Char)
    (hext : ext ∈ SUPPORTED_EXTENSIONS)
    (hsuf : ext <:+ name)
    (hcount : files.count [name] = 1)
    (htr : tracked (resolve [name]) = false) :
    (discover_new_sources files tracked resolve).count [name] = 2 := by
  unfold discover_new_sources
  rw [count_filter_of_pos _ _ _ (by rw [htr]; rfl)]
  rw [show SUPPORTED_EXTENSIONS = [".pdf".toList, ".md".toList, ".txt".toList] from rfl]
  simp only [List.map_cons, List.map_nil, List.flatten_cons, List.flatten_nil,
    List.append_nil, List.count_append]
  simp only [SUPPORTED_EXTENSIONS, List.mem_cons, List.not_mem_nil, or_false] at hext
  have hflat : ∀ e' : List Char, matchesFlat e' [name] = decide (e' <:+ name) := fun _ => rfl
  have hrec : ∀ e' : List Char, matchesRec e' [name] = decide (e' <:+ name) := fun _ => rfl
  rcases hext with rfl | rfl | rfl
  · have hmd : ¬ ".md".toList <:+ name :=
      not_suffix_of_incomparable hsuf (by decide) (by decide)
    have htxt : ¬ ".txt".toList <:+ name :=
      not_suffix_of_incomparable hsuf (by decide) (by decide)
    rw [count_filter_of_pos _ _ _ (by rw [hflat]; exact decide_eq_true hsuf),
      count_filter_of_pos _ _ _ (by rw [hrec]; exact decide_eq_true hsuf),
      count_filter_of_neg _ _ _ (by rw [hflat]; exact decide_eq_false hmd),
      count_filter_of_neg _ _ _ (by rw [hrec]; exact decide_eq_false hmd),
      count_filter_of_neg _ _ _ (by rw [hflat]; exact decide_eq_false htxt),
      count_filter_of_neg _ _ _ (by rw [hrec]; exact decide_eq_false htxt),
      hcount]
  · have hpdf : ¬ ".pdf".toList <:+ name :=
      not_suffix_of_incomparable hsuf (by decide) (by decide)
    have htxt : ¬ ".txt".toList <:+ name :=
      not_suffix_of_incomparable hsuf (by decide) (by decide)
    rw [count_filter_of_neg _ _ _ (by rw [hflat]; exact decide_eq_false hpdf),
      count_filter_of_neg _ _ _ (by rw [hrec]; exact decide_eq_false hpdf),
      count_filter_of_pos _ _ _ (by rw [hflat]; exact decide_eq_true hsuf),
      count_filter_of_pos _ _ _ (by rw [hrec]; exact decide_eq_true hsuf),
      count_filter_of_neg _ _ _ (by rw [hflat]; exact decide_eq_false htxt),
      count_filter_of_neg _ _ _ (by rw [hrec]; exact decide_eq_false htxt),
      hcount]
  · have hpdf : ¬ ".pdf".toList <:+ name :=
      not_suffix_of_incomparable hsuf (by decide) (by decide)
    have hmd : ¬ ".md".toList <:+ name :=
      not_suffix_of_incomparable hsuf (by decide) (by decide)
    rw [count_filter_of_neg _ _ _ (by rw [hflat]; exact decide_eq_false hpdf),
      count_filter_of_neg _ _ _ (by rw [hrec]; exact decide_eq_false hpdf),
      count_filter_of_neg _ _ _ (by rw [hflat]; exact decide_eq_false hmd),
      count_filter_of_neg _ _ _ (by rw [hrec]; exact decide_eq_false hmd),
      count_filter_of_pos _ _ _ (by rw [hflat]; exact decide_eq_true hsuf),
      count_filter_of_pos _ _ _ (by rw [hrec]; exact decide_eq_true hsuf),
      hcount]

/-- Claim C10 (witness): the untracked top-level file `a.md` appears
twice in the discovery result for a one-file directory. -/

theorem discover_new_sources_top_level_twice_witness :
    (discover_new_sources [["a.md".toList]] (fun _ => false)
        (fun _ => [])).count ["a.md".toList] = 2 :=
  discover_new_sources_top_level_twice [["a.md".toList]] (fun _ => false)
    (fun _ => []) (".md".toList) ("a.md".toList) (by decide) (by decide)
    (by decide) rfl

end Noctem
